import Mathlib

/-!
# Bit-banged I2C master (driver/iic.c)

A shallow embedding of the signal-level bus driver and of the transaction
layer built on it.

* The two port latches `scl` (P2.0) and `sda` (P2.1) and everything the
  driver does to them are modelled by the state `Pins`: every latch write,
  every read of the data pin and every call of `I2C_Delay` is appended to
  `Pins.log`; the values read from the data pin come from `Pins.env`.
* `unsigned char` values are natural numbers, reduced `% 256` where the
  source can overflow (`byt <<= 1`, `da <<= 1`).
* The transaction layer (`Ad_Read`, `Da_Write`, `EEPROM_Write`,
  `EEPROM_Read`) only calls the seven signal-level functions, so it is
  written once over a record `I2CBus` of these seven functions.  `pinBus` is
  the record made of the functions of iic.c; `recording B` runs any bus `B`
  and keeps the list of operations that were called.
* `wired B` is a bus `B` on pins that are wired to an emulated EEPROM: the
  device sees every pin action of the master (clock edges, start and stop
  conditions, the data line as the wired-AND of both sides) and answers on the
  data line.  The device is no part of the repository; it is modelled from
  the specification.  The round-trip property is stated on `pinBus`, for runs
  in which every sampled level is the level of that line (`agrees`).
* `segmented da0` is `pinBus da0` with the pin actions kept call by call, so
  that a pin action can be traced to the function that made it.
* The functions of driver/led.c are embedded in the namespace `Led`.
-/

namespace Iic

/-! ## Pin level -/

/-- One observable action of the master on its two port pins. -/
inductive Pin where
  /-- Write `v` to the clock latch: `scl = v`. -/
  | scl (v : Bool)
  /-- Write `v` to the data latch: `sda = v`. -/
  | sda (v : Bool)
  /-- Read the data pin, obtaining `v`. -/
  | rd (v : Bool)
  /-- One call `I2C_Delay(n)`. -/
  | delay (n : Nat)
  deriving DecidableEq

/-- State of the port as the driver sees it. -/
structure Pins where
  /-- Clock latch. -/
  scl : Bool
  /-- Data latch. -/
  sda : Bool
  /-- Level obtained by the `k`-th read of the data pin. -/
  env : Nat → Bool
  /-- Number of reads of the data pin made so far. -/
  reads : Nat
  /-- Number of `_nop_()` executed so far. -/
  nops : Nat
  /-- Every action so far, oldest first. -/
  log : List Pin

/-- Statement `scl = v;`. -/
def setScl (v : Bool) (s : Pins) : Pins :=
  { s with scl := v, log := s.log ++ [Pin.scl v] }

/-- Statement `sda = v;`. -/
def setSda (v : Bool) (s : Pins) : Pins :=
  { s with sda := v, log := s.log ++ [Pin.sda v] }

/-- Expression `sda` read as a value. -/
def getSda (s : Pins) : Bool × Pins :=
  (s.env s.reads,
   { s with reads := s.reads + 1, log := s.log ++ [Pin.rd (s.env s.reads)] })

/-- Constant `DELAY_TIME` of iic.c. -/
def DELAY_TIME : Nat := 5

/-- Body of the loop of `I2C_Delay`: fifteen `_nop_()`. -/
def I2C_Delay_body (s : Pins) : Pins :=
  { s with nops := s.nops + 15 }

/-- Loop `do { body } while (n--);` of `I2C_Delay`: the body runs, then `n`
is tested and decremented; with `n = 0` the loop ends (the wrapped value 255
of `n` is never used). -/
def I2C_Delay_loop : Nat → Pins → Pins
  | 0, s => I2C_Delay_body s
  | n + 1, s => I2C_Delay_loop n (I2C_Delay_body s)

/-- Function `I2C_Delay(n)`; the call itself is noted in the log. -/
def I2C_Delay (n : Nat) (s : Pins) : Pins :=
  I2C_Delay_loop n { s with log := s.log ++ [Pin.delay n] }

/-- Function `I2CStart`. -/
def I2CStart (s : Pins) : Pins :=
  let s := setSda true s
  let s := setScl true s
  let s := I2C_Delay DELAY_TIME s
  let s := setSda false s
  let s := I2C_Delay DELAY_TIME s
  setScl false s

/-- Function `I2CStop`. -/
def I2CStop (s : Pins) : Pins :=
  let s := setSda false s
  let s := setScl true s
  let s := I2C_Delay DELAY_TIME s
  let s := setSda true s
  I2C_Delay DELAY_TIME s

/-- One pass of the `for` loop of `I2CSendByte`; returns the shifted `byt`. -/
def I2CSendByte_body (byt : Nat) (s : Pins) : Nat × Pins :=
  let s := setScl false s
  let s := I2C_Delay DELAY_TIME s
  let s := if byt &&& 0x80 ≠ 0 then setSda true s else setSda false s
  let s := I2C_Delay DELAY_TIME s
  let s := setScl true s
  let byt := (byt <<< 1) % 256
  let s := I2C_Delay DELAY_TIME s
  (byt, s)

/-- Loop `for(i=0; i<8; i++)` of `I2CSendByte`, by the number of passes that
remain (the body does not use `i`). -/
def I2CSendByte_loop : Nat → Nat → Pins → Pins
  | 0, _, s => s
  | k + 1, byt, s =>
    let r := I2CSendByte_body byt s
    I2CSendByte_loop k r.1 r.2

/-- Function `I2CSendByte(byt)`. -/
def I2CSendByte (byt : Nat) (s : Pins) : Pins :=
  setScl false (I2CSendByte_loop 8 byt s)

/-- One pass of the `for` loop of `I2CReceiveByte` on the accumulator `da`. -/
def I2CReceiveByte_body (da : Nat) (s : Pins) : Nat × Pins :=
  let s := setScl true s
  let s := I2C_Delay DELAY_TIME s
  let da := (da <<< 1) % 256
  let r := getSda s
  let da := if r.1 then da ||| 0x01 else da
  let s := setScl false r.2
  let s := I2C_Delay DELAY_TIME s
  (da, s)

/-- Loop `for(i=0; i<8; i++)` of `I2CReceiveByte`, by the number of passes
that remain. -/
def I2CReceiveByte_loop : Nat → Nat → Pins → Nat × Pins
  | 0, da, s => (da, s)
  | k + 1, da, s =>
    let r := I2CReceiveByte_body da s
    I2CReceiveByte_loop k r.1 r.2

/-- Function `I2CReceiveByte`.  The local `da` is not initialised in the
source: `da0` is whatever its storage holds on entry. -/
def I2CReceiveByte (da0 : Nat) (s : Pins) : Nat × Pins :=
  I2CReceiveByte_loop 8 da0 s

/-- Function `I2CWaitAck`: returns `ackbit`, 0 or 1. -/
def I2CWaitAck (s : Pins) : Nat × Pins :=
  let s := setScl true s
  let s := I2C_Delay DELAY_TIME s
  let r := getSda s
  let ackbit := if r.1 then 1 else 0
  let s := setScl false r.2
  let s := I2C_Delay DELAY_TIME s
  (ackbit, s)

/-- Function `I2CSendAck(ackbit)`; `sda = ackbit` sets the bit when `ackbit`
is not zero. -/
def I2CSendAck (ackbit : Nat) (s : Pins) : Pins :=
  let s := setScl false s
  let s := setSda (decide (ackbit ≠ 0)) s
  let s := I2C_Delay DELAY_TIME s
  let s := setScl true s
  let s := I2C_Delay DELAY_TIME s
  let s := setScl false s
  let s := setSda true s
  I2C_Delay DELAY_TIME s

/-! ## Reading a pin log -/

/-- Data latch value at each rising edge of the clock latch (a write of 1 to
`scl` while it holds 0), replaying `log` from the latch values `c`, `d`. -/
def risingEdges : Bool → Bool → List Pin → List Bool
  | _, _, [] => []
  | c, d, Pin.scl v :: es =>
    if c = false ∧ v = true then d :: risingEdges v d es else risingEdges v d es
  | c, _, Pin.sda v :: es => risingEdges c v es
  | c, d, Pin.rd _ :: es => risingEdges c d es
  | c, d, Pin.delay _ :: es => risingEdges c d es

/-- Clock latch value at each write of the data latch, replaying `log` from
the clock latch value `c`. -/
def clockAtDataWrites : Bool → List Pin → List Bool
  | _, [] => []
  | _, Pin.scl v :: es => clockAtDataWrites v es
  | c, Pin.sda _ :: es => c :: clockAtDataWrites c es
  | c, Pin.rd _ :: es => clockAtDataWrites c es
  | c, Pin.delay _ :: es => clockAtDataWrites c es

/-- Clock latch value at each read of the data pin, replaying `log` from the
clock latch value `c`. -/
def clockAtSamples : Bool → List Pin → List Bool
  | _, [] => []
  | _, Pin.scl v :: es => clockAtSamples v es
  | c, Pin.sda _ :: es => clockAtSamples c es
  | c, Pin.rd _ :: es => c :: clockAtSamples c es
  | c, Pin.delay _ :: es => clockAtSamples c es

/-- The actions appended to the log between state `s` and a later state `t`. -/
def emitted (s t : Pins) : List Pin :=
  t.log.drop s.log.length

/-! ## Transaction layer -/

/-- The seven signal-level functions the transaction layer calls. -/
structure I2CBus (σ : Type) where
  I2C_Delay : Nat → σ → σ
  I2CStart : σ → σ
  I2CStop : σ → σ
  I2CSendByte : Nat → σ → σ
  I2CReceiveByte : σ → Nat × σ
  I2CWaitAck : σ → Nat × σ
  I2CSendAck : Nat → σ → σ

/-- The bus of iic.c: the signal-level functions above, on the port pins. -/
def pinBus (da0 : Nat) : I2CBus Pins where
  I2C_Delay := Iic.I2C_Delay
  I2CStart := Iic.I2CStart
  I2CStop := Iic.I2CStop
  I2CSendByte := Iic.I2CSendByte
  I2CReceiveByte := Iic.I2CReceiveByte da0
  I2CWaitAck := Iic.I2CWaitAck
  I2CSendAck := Iic.I2CSendAck

/-- Function `Ad_Read(addr)`. -/
def Ad_Read {σ : Type} (B : I2CBus σ) (addr : Nat) (s : σ) : Nat × σ :=
  let s := B.I2CStart s
  let s := B.I2CSendByte 0x90 s
  let s := (B.I2CWaitAck s).2
  let s := B.I2CSendByte addr s
  let s := (B.I2CWaitAck s).2
  let s := B.I2CStart s
  let s := B.I2CSendByte 0x91 s
  let s := (B.I2CWaitAck s).2
  let r := B.I2CReceiveByte s
  let temp := r.1
  let s := B.I2CSendAck 1 r.2
  let s := B.I2CStop s
  (temp, s)

/-- Function `Da_Write(dat)`. -/
def Da_Write {σ : Type} (B : I2CBus σ) (dat : Nat) (s : σ) : σ :=
  let s := B.I2CStart s
  let s := B.I2CSendByte 0x90 s
  let s := (B.I2CWaitAck s).2
  let s := B.I2CSendByte 0x41 s
  let s := (B.I2CWaitAck s).2
  let s := B.I2CSendByte dat s
  (B.I2CWaitAck s).2

/-- Loop `while(num--) { ... }` of `EEPROM_Write`.  `mem` is the caller's
array and `p` the index `str` points at.  `num` is tested, then decremented:
with `num = 0` the loop ends (the wrapped value of `num` is never used).  A
read past the end of `mem`, undefined in C, yields 0. -/
def EEPROM_Write_loop {σ : Type} (B : I2CBus σ) :
    Nat → List Nat → Nat → σ → List Nat × σ
  | 0, mem, _, s => (mem, s)
  | num + 1, mem, p, s =>
    let s := B.I2CSendByte (mem.getD p 0) s
    let s := (B.I2CWaitAck s).2
    let s := B.I2C_Delay 200 s
    EEPROM_Write_loop B num mem (p + 1) s

/-- Function `EEPROM_Write(str, addr, num)`; `str` is the caller's array, the
pointer being at its index 0.  Returns the array with the bus state. -/
def EEPROM_Write {σ : Type} (B : I2CBus σ) (str : List Nat) (addr num : Nat)
    (s : σ) : List Nat × σ :=
  let s := B.I2CStart s
  let s := B.I2CSendByte 0xa0 s
  let s := (B.I2CWaitAck s).2
  let s := B.I2CSendByte addr s
  let s := (B.I2CWaitAck s).2
  let r := EEPROM_Write_loop B num str 0 s
  let s := B.I2CStop r.2
  let s := B.I2C_Delay 255 s
  let s := B.I2C_Delay 255 s
  let s := B.I2C_Delay 255 s
  let s := B.I2C_Delay 255 s
  let s := B.I2C_Delay 255 s
  let s := B.I2C_Delay 255 s
  let s := B.I2C_Delay 255 s
  let s := B.I2C_Delay 255 s
  let s := B.I2C_Delay 255 s
  let s := B.I2C_Delay 255 s
  (r.1, s)

/-- Loop `while(num--) { ... }` of `EEPROM_Read`.  `mem` is the caller's
array and `p` the index `str` points at; inside the body `num` is already
decremented.  A store past the end of `mem`, undefined in C, is dropped. -/
def EEPROM_Read_loop {σ : Type} (B : I2CBus σ) :
    Nat → List Nat → Nat → σ → List Nat × σ
  | 0, mem, _, s => (mem, s)
  | num + 1, mem, p, s =>
    let r := B.I2CReceiveByte s
    let mem := mem.set p r.1
    let s := if num ≠ 0 then B.I2CSendAck 0 r.2 else B.I2CSendAck 1 r.2
    EEPROM_Read_loop B num mem (p + 1) s

/-- Function `EEPROM_Read(str, addr, num)`; `str` is the caller's array, the
pointer being at its index 0.  Returns the array with the bus state. -/
def EEPROM_Read {σ : Type} (B : I2CBus σ) (str : List Nat) (addr num : Nat)
    (s : σ) : List Nat × σ :=
  let s := B.I2CStart s
  let s := B.I2CSendByte 0xa0 s
  let s := (B.I2CWaitAck s).2
  let s := B.I2CSendByte addr s
  let s := (B.I2CWaitAck s).2
  let s := B.I2CStart s
  let s := B.I2CSendByte 0xa1 s
  let s := (B.I2CWaitAck s).2
  let r := EEPROM_Read_loop B num str 0 s
  let s := B.I2CStop r.2
  (r.1, s)

/-! ## Observing the bus operations of a transaction -/

/-- One call of a signal-level function. -/
inductive Op where
  | start
  | stop
  | send (b : Nat)
  | waitAck
  | receive
  | sendAck (a : Nat)
  | delay (n : Nat)
  deriving DecidableEq

/-- What has been observed of a run: the calls, oldest first, and the values
returned by the calls of `I2CReceiveByte`, oldest first. -/
structure Trace where
  ops : List Op
  rx : List Nat
  deriving DecidableEq

/-- The empty observation. -/
def Trace.empty : Trace := { ops := [], rx := [] }

/-- Note one call. -/
def Trace.call (t : Trace) (o : Op) : Trace :=
  { t with ops := t.ops ++ [o] }

/-- The bus `B` with every call noted: each function does what it does in `B`
and adds its name and argument to the trace. -/
def recording {σ : Type} (B : I2CBus σ) : I2CBus (σ × Trace) where
  I2C_Delay n st := (B.I2C_Delay n st.1, st.2.call (Op.delay n))
  I2CStart st := (B.I2CStart st.1, st.2.call Op.start)
  I2CStop st := (B.I2CStop st.1, st.2.call Op.stop)
  I2CSendByte b st := (B.I2CSendByte b st.1, st.2.call (Op.send b))
  I2CReceiveByte st :=
    let r := B.I2CReceiveByte st.1
    (r.1, (r.2, { ops := st.2.ops ++ [Op.receive], rx := st.2.rx ++ [r.1] }))
  I2CWaitAck st :=
    let r := B.I2CWaitAck st.1
    (r.1, (r.2, st.2.call Op.waitAck))
  I2CSendAck a st := (B.I2CSendAck a st.1, st.2.call (Op.sendAck a))

/-! ## Sample states -/

/-- The idle bus (both latches high, nothing logged) in front of a data line
whose `k`-th sample is `env k`. -/
def idlePins (env : Nat → Bool) : Pins :=
  { scl := true, sda := true, env := env, reads := 0, nops := 0, log := [] }

/-! ## Sequences of transactions -/

/-- One call of a function of the transaction layer, with its arguments. -/
inductive Call where
  | adRead (addr : Nat)
  | daWrite (dat : Nat)
  | eepromWrite (str : List Nat) (addr num : Nat)
  | eepromRead (str : List Nat) (addr num : Nat)

/-- The bus state after one call (the value returned and the caller's array
are dropped). -/
def Call.run {σ : Type} (B : I2CBus σ) : Call → σ → σ
  | Call.adRead addr, s => (Ad_Read B addr s).2
  | Call.daWrite dat, s => Da_Write B dat s
  | Call.eepromWrite str addr num, s => (EEPROM_Write B str addr num s).2
  | Call.eepromRead str addr num, s => (EEPROM_Read B str addr num s).2

/-- The bus state after a finite sequence of calls, made one after the other. -/
def runCalls {σ : Type} (B : I2CBus σ) (cs : List Call) (s : σ) : σ :=
  cs.foldl (fun s c => c.run B s) s

/-! ## Observing which function made which pin action -/

/-- The bus `B` with one note per call: `f o s t` is what is kept of the call
`o` that took the bus from state `s` to state `t`. -/
def observing {σ α : Type} (B : I2CBus σ) (f : Op → σ → σ → α) : I2CBus (σ × List α) where
  I2C_Delay n st := (B.I2C_Delay n st.1, st.2 ++ [f (Op.delay n) st.1 (B.I2C_Delay n st.1)])
  I2CStart st := (B.I2CStart st.1, st.2 ++ [f Op.start st.1 (B.I2CStart st.1)])
  I2CStop st := (B.I2CStop st.1, st.2 ++ [f Op.stop st.1 (B.I2CStop st.1)])
  I2CSendByte b st :=
    (B.I2CSendByte b st.1, st.2 ++ [f (Op.send b) st.1 (B.I2CSendByte b st.1)])
  I2CReceiveByte st :=
    ((B.I2CReceiveByte st.1).1,
     ((B.I2CReceiveByte st.1).2, st.2 ++ [f Op.receive st.1 (B.I2CReceiveByte st.1).2]))
  I2CWaitAck st :=
    ((B.I2CWaitAck st.1).1,
     ((B.I2CWaitAck st.1).2, st.2 ++ [f Op.waitAck st.1 (B.I2CWaitAck st.1).2]))
  I2CSendAck a st :=
    (B.I2CSendAck a st.1, st.2 ++ [f (Op.sendAck a) st.1 (B.I2CSendAck a st.1)])

/-- The pin actions of one call of a signal-level function: which function,
the two latch values when it was entered, and the actions it made, in order. -/
structure Seg where
  op : Op
  scl0 : Bool
  sda0 : Bool
  evs : List Pin

/-- The segment of the call `o` that took the pins from `s` to `t`. -/
def seg (o : Op) (s t : Pins) : Seg :=
  { op := o, scl0 := s.scl, sda0 := s.sda, evs := emitted s t }

/-- The bus of iic.c with the pin actions kept call by call. -/
def segmented (da0 : Nat) : I2CBus (Pins × List Seg) :=
  observing (pinBus da0) seg

/-- The writes that change the data latch while the clock latch is high, each
as (old value, new value), replaying `log` from the latch values `c`, `d`. -/
def dataChangesClockHigh : Bool → Bool → List Pin → List (Bool × Bool)
  | _, _, [] => []
  | _, d, Pin.scl v :: es => dataChangesClockHigh v d es
  | c, d, Pin.sda v :: es =>
    if c = true ∧ v ≠ d then (d, v) :: dataChangesClockHigh c v es
    else dataChangesClockHigh c v es
  | c, d, Pin.rd _ :: es => dataChangesClockHigh c d es
  | c, d, Pin.delay _ :: es => dataChangesClockHigh c d es

/-- Data latch value at each read of the data pin, replaying `log` from the
data latch value `d`. -/
def dataAtSamples : Bool → List Pin → List Bool
  | _, [] => []
  | d, Pin.scl _ :: es => dataAtSamples d es
  | _, Pin.sda v :: es => dataAtSamples v es
  | d, Pin.rd _ :: es => d :: dataAtSamples d es
  | d, Pin.delay _ :: es => dataAtSamples d es

/-- The timing discipline on one segment: inside `I2CStart` the data latch
changes while the clock latch is high exactly once, from high to low; inside
`I2CStop` exactly once, from low to high; inside any other function never. -/
def Seg.timingOk (g : Seg) : Bool :=
  match g.op with
  | Op.start => decide (dataChangesClockHigh g.scl0 g.sda0 g.evs = [(true, false)])
  | Op.stop => decide (dataChangesClockHigh g.scl0 g.sda0 g.evs = [(false, true)])
  | _ => decide (dataChangesClockHigh g.scl0 g.sda0 g.evs = [])

/-- In a segment of `I2CReceiveByte`, the data latch is high at each of the
eight reads of the data pin. -/
def Seg.receiveReleased (g : Seg) : Bool :=
  match g.op with
  | Op.receive => decide (dataAtSamples g.sda0 g.evs = List.replicate 8 true)
  | _ => true

/-- Whether a segment is one of `I2CWaitAck`. -/
def Seg.isWaitAck (g : Seg) : Bool :=
  match g.op with
  | Op.waitAck => true
  | _ => false

/-- The actions of the master in a pin log: the latch writes and the delays,
without the reads of the data pin. -/
def masterActions (log : List Pin) : List Pin :=
  log.filter (fun e => match e with
    | Pin.rd _ => false
    | _ => true)

/-- Every byte transfer is directly followed by its acknowledgement phase:
each send-byte by a wait-ack, each receive-byte by a send-ack. -/
def ackFollows : List Op → Bool
  | [] => true
  | Op.send _ :: Op.waitAck :: rest => ackFollows rest
  | Op.send _ :: _ => false
  | Op.receive :: Op.sendAck _ :: rest => ackFollows rest
  | Op.receive :: _ => false
  | _ :: rest => ackFollows rest

/-- The bytes passed to `I2CSendByte`, in order. -/
def sentBytes : List Op → List Nat
  | [] => []
  | Op.send b :: rest => b :: sentBytes rest
  | _ :: rest => sentBytes rest

/-- Two buses step together: each of the seven functions, called with the
same argument, takes related states to related states (whatever the values
`I2CReceiveByte` and `I2CWaitAck` return). -/
def BusRel {σ τ : Type} (B : I2CBus σ) (C : I2CBus τ) (R : σ → τ → Prop) : Prop :=
  (∀ n s t, R s t → R (B.I2C_Delay n s) (C.I2C_Delay n t))
  ∧ (∀ s t, R s t → R (B.I2CStart s) (C.I2CStart t))
  ∧ (∀ s t, R s t → R (B.I2CStop s) (C.I2CStop t))
  ∧ (∀ b s t, R s t → R (B.I2CSendByte b s) (C.I2CSendByte b t))
  ∧ (∀ s t, R s t → R (B.I2CReceiveByte s).2 (C.I2CReceiveByte t).2)
  ∧ (∀ s t, R s t → R (B.I2CWaitAck s).2 (C.I2CWaitAck t).2)
  ∧ (∀ a s t, R s t → R (B.I2CSendAck a s) (C.I2CSendAck a t))


/-- Inside a transaction, seen through `segmented`: every call so far kept the
timing discipline and the clock latch is low. -/
def TimingLow (st : Pins × List Seg) : Prop :=
  st.2.all Seg.timingOk = true ∧ st.1.scl = false

/-- Between two transactions, seen through `segmented`: every call so far
kept the timing discipline and the pins are not left with the clock latch
high and the data latch low. -/
def TimingRest (st : Pins × List Seg) : Prop :=
  st.2.all Seg.timingOk = true ∧ (st.1.scl = true → st.1.sda = true)

/-- Seen through `segmented`: every call of `I2CReceiveByte` so far sampled
with the data latch high. -/
def Released (st : Pins × List Seg) : Prop :=
  st.2.all Seg.receiveReleased = true

/-- Seen through `segmented`: `Released`, and the data latch is high now. -/
def ReleasedHigh (st : Pins × List Seg) : Prop :=
  st.2.all Seg.receiveReleased = true ∧ st.1.sda = true


/-- An operation list after which a check by `ackFollows` starts afresh: it
passes the check and does not end in a byte transfer that still waits for its
acknowledgement phase. -/
def AckClosed (l : List Op) : Prop :=
  ∀ tail : List Op, ackFollows (l ++ tail) = ackFollows tail

/-- Two pin states that show the same to an observer of the master: same
latches, same time spent, same latch writes and delays so far. -/
def SameMaster (s t : Pins) : Prop :=
  s.scl = t.scl ∧ s.sda = t.sda ∧ s.nops = t.nops
    ∧ masterActions s.log = masterActions t.log

/-! ## EEPROM emulation on the two wires -/

/-- Modelled from the spec: the EEPROM device is no part of the repository.
Which byte the emulated EEPROM is taking in: the device address after a start,
the pointer after the write address 0xa0, or a byte to store. -/
inductive ByteKind where
  | device
  | pointer
  | data
  deriving DecidableEq

/-- Modelled from the spec: what the emulated EEPROM does once it has
acknowledged a byte. -/
inductive AfterAck where
  /-- A byte of kind `k` is taken in. -/
  | take (k : ByteKind)
  /-- The byte at the pointer is put out. -/
  | give
  /-- Nothing: the device address was neither 0xa0 nor 0xa1. -/
  | rest
  deriving DecidableEq

/-- Modelled from the spec: where the emulated EEPROM stands in a transfer. -/
inductive SlavePhase where
  /-- Not addressed: the data line is left alone. -/
  | idle
  /-- Taking in a byte of kind `k`: `cnt` bits are in, their value is `shift`. -/
  | recv (k : ByteKind) (cnt shift : Nat)
  /-- Acknowledging: the data line is held low for one clock; `next` says what
  follows. -/
  | ack (next : AfterAck)
  /-- Putting out the byte at the pointer: bit `7 - j` is on the data line. -/
  | send (j : Nat)
  /-- The byte is out: the data line is left to the master for its
  acknowledgement clock. -/
  | mack
  /-- The master acknowledged: the next byte follows at the falling clock. -/
  | cont
  deriving DecidableEq

/-- Modelled from the spec: the emulated EEPROM, a 256-byte store (cells
0..255), its pointer and where it stands in a transfer. -/
structure Slave where
  store : Nat → Nat
  ptr : Nat
  phase : SlavePhase

/-- Modelled from the spec: the level the emulated EEPROM puts on the data
line (`true`: released).  It always acknowledges, and after the read address
0xa1 it puts out the byte at the pointer, most significant bit first. -/
def Slave.out (d : Slave) : Bool :=
  match d.phase with
  | SlavePhase.ack _ => false
  | SlavePhase.send j => (d.store d.ptr).testBit (7 - j)
  | _ => true

/-- Modelled from the spec: the emulated EEPROM has a whole byte `b` of kind
`k`, which it acknowledges whatever the byte.  After a start the byte is the
device address (0xa0 write, 0xa1 read); the byte following the write address
sets the pointer; each further byte is stored at the pointer, which is
incremented. -/
def Slave.onByte (k : ByteKind) (b : Nat) (d : Slave) : Slave :=
  match k with
  | ByteKind.device =>
    if b = 0xa0 then { d with phase := SlavePhase.ack (AfterAck.take ByteKind.pointer) }
    else if b = 0xa1 then { d with phase := SlavePhase.ack AfterAck.give }
    else { d with phase := SlavePhase.ack AfterAck.rest }
  | ByteKind.pointer =>
    { d with ptr := b, phase := SlavePhase.ack (AfterAck.take ByteKind.data) }
  | ByteKind.data =>
    { d with store := fun i => if i = d.ptr then b else d.store i,
             ptr := (d.ptr + 1) % 256,
             phase := SlavePhase.ack (AfterAck.take ByteKind.data) }

/-- Modelled from the spec: the emulated EEPROM at a rising edge of the clock
line, the data line being at `line`: a bit is taken in; or, the byte at the
pointer having been put out, the pointer is incremented and the master's
acknowledgement is looked at (a not-acknowledge ends the read). -/
def Slave.onRising (line : Bool) (d : Slave) : Slave :=
  match d.phase with
  | SlavePhase.recv k cnt shift =>
    if cnt < 8 then { d with phase := SlavePhase.recv k (cnt + 1) (2 * shift + line.toNat) }
    else d
  | SlavePhase.mack =>
    { d with ptr := (d.ptr + 1) % 256,
             phase := if line then SlavePhase.idle else SlavePhase.cont }
  | _ => d

/-- Modelled from the spec: the emulated EEPROM at a falling edge of the clock
line: a byte that is complete is dealt with and acknowledged, an
acknowledgement ends, the next bit or the next byte is put out. -/
def Slave.onFalling (d : Slave) : Slave :=
  match d.phase with
  | SlavePhase.recv k cnt shift => if cnt = 8 then d.onByte k shift else d
  | SlavePhase.ack (AfterAck.take k) => { d with phase := SlavePhase.recv k 0 0 }
  | SlavePhase.ack AfterAck.give => { d with phase := SlavePhase.send 0 }
  | SlavePhase.ack AfterAck.rest => { d with phase := SlavePhase.idle }
  | SlavePhase.send j =>
    if j < 7 then { d with phase := SlavePhase.send (j + 1) }
    else { d with phase := SlavePhase.mack }
  | SlavePhase.cont => { d with phase := SlavePhase.send 0 }
  | _ => d

/-- Modelled from the spec: the two wires between the master and the emulated
EEPROM.  `scl`, `sda` are the master's latches; the data line is low when
either side holds it low; `ok` says that every read of the data pin so far got
the level of the data line. -/
structure Wires where
  slave : Slave
  scl : Bool
  sda : Bool
  ok : Bool

/-- Modelled from the spec: the level of the data line. -/
def Wires.line (w : Wires) : Bool :=
  w.sda && w.slave.out

/-- Modelled from the spec: one pin action of the master seen on the wires.
A clock write may be a rising or a falling edge; a data write under high clock
that moves the data line is a start (falling) or a stop (rising) condition; a
read of the data pin is compared with the data line. -/
def Wires.step (w : Wires) : Pin → Wires
  | Pin.scl v =>
    if w.scl = false ∧ v = true then
      { w with slave := w.slave.onRising w.line, scl := v }
    else if w.scl = true ∧ v = false then
      { w with slave := w.slave.onFalling, scl := v }
    else { w with scl := v }
  | Pin.sda v =>
    if w.scl = true ∧ w.line = true ∧ (v && w.slave.out) = false then
      { w with slave := { w.slave with phase := SlavePhase.recv ByteKind.device 0 0 }, sda := v }
    else if w.scl = true ∧ w.line = false ∧ (v && w.slave.out) = true then
      { w with slave := { w.slave with phase := SlavePhase.idle }, sda := v }
    else { w with sda := v }
  | Pin.rd v => { w with ok := w.ok && decide (v = w.line) }
  | Pin.delay _ => w

/-- Modelled from the spec: the wires after the pin actions `evs`. -/
def Wires.replay (w : Wires) (evs : List Pin) : Wires :=
  evs.foldl Wires.step w

/-- Every read of the data pin in the pin log `evs` got the level the data
line had, the emulated EEPROM starting as `d` and the master's latches as `c`,
`s`. -/
def agrees (d : Slave) (c s : Bool) (evs : List Pin) : Bool :=
  (Wires.replay { slave := d, scl := c, sda := s, ok := true } evs).ok

/-- The bus `B` on pins wired to the emulated EEPROM: each function does what
it does in `B` and the pin actions it made are shown to the emulated EEPROM. -/
def wired (B : I2CBus Pins) : I2CBus (Pins × Wires) where
  I2C_Delay n st := (B.I2C_Delay n st.1, st.2.replay (emitted st.1 (B.I2C_Delay n st.1)))
  I2CStart st := (B.I2CStart st.1, st.2.replay (emitted st.1 (B.I2CStart st.1)))
  I2CStop st := (B.I2CStop st.1, st.2.replay (emitted st.1 (B.I2CStop st.1)))
  I2CSendByte b st :=
    (B.I2CSendByte b st.1, st.2.replay (emitted st.1 (B.I2CSendByte b st.1)))
  I2CReceiveByte st :=
    ((B.I2CReceiveByte st.1).1,
     ((B.I2CReceiveByte st.1).2, st.2.replay (emitted st.1 (B.I2CReceiveByte st.1).2)))
  I2CWaitAck st :=
    ((B.I2CWaitAck st.1).1,
     ((B.I2CWaitAck st.1).2, st.2.replay (emitted st.1 (B.I2CWaitAck st.1).2)))
  I2CSendAck a st :=
    (B.I2CSendAck a st.1, st.2.replay (emitted st.1 (B.I2CSendAck a st.1)))

/-- An erased emulated EEPROM: every cell 0xff, not addressed. -/
def blankSlave : Slave :=
  { store := fun _ => 0xff, ptr := 0, phase := SlavePhase.idle }

/-- The samples a master gets that writes `count` bytes of `buf` with
`EEPROM_Write` and reads `count` bytes back with `EEPROM_Read`, when the line
carries what the device answers: every acknowledgement sample is low (two and
one for each byte in the write, three in the read), then come the bits of the
bytes, most significant first. -/
def roundTripEnv (count : Nat) (buf : List Nat) (k : Nat) : Bool :=
  if k < count + 5 then false
  else (buf.getD ((k - (count + 5)) / 8) 0xff).testBit (7 - (k - (count + 5)) % 8)

end Iic

/-!
# LED and peripheral latches (driver/led.c)

The functions of led.c write the ports P0 and P2.  What a port write does to
the board is taken from the comments of led.c: the three high bits of P2 go
through a 138 decoder; with 100 (output Y4) the LED latch takes the value of
P0, with 101 (output Y5) the latch of the buzzer, motor and relay takes it;
with any other value both latches keep what they hold.
-/

namespace Led

/-- One load of a latch with a value. -/
inductive Load where
  /-- The LED latch (decoder output Y4) takes `v`. -/
  | led (v : Nat)
  /-- The latch of the buzzer, motor and relay (decoder output Y5) takes `v`. -/
  | per (v : Nat)
  deriving DecidableEq

/-- The ports, the two latches behind them and the four globals of led.c. -/
structure Board where
  /-- Port P0. -/
  P0 : Nat
  /-- Port P2. -/
  P2 : Nat
  /-- Content of the LED latch. -/
  led : Nat
  /-- Content of the latch of the buzzer, motor and relay. -/
  per : Nat
  temp_1 : Nat
  temp_1_old : Nat
  temp_2 : Nat
  temp_2_old : Nat
  /-- Every load of a latch so far, oldest first. -/
  loads : List Load

/-- The selected latch, if any, takes the value of P0. -/
def Board.latch (s : Board) : Board :=
  if s.P2 &&& 0xe0 = 0x80 then { s with led := s.P0, loads := s.loads ++ [Load.led s.P0] }
  else if s.P2 &&& 0xe0 = 0xa0 then { s with per := s.P0, loads := s.loads ++ [Load.per s.P0] }
  else s

/-- Statement `P0 = v;`. -/
def setP0 (v : Nat) (s : Board) : Board :=
  Board.latch { s with P0 := v }

/-- Statement `P2 = v;`. -/
def setP2 (v : Nat) (s : Board) : Board :=
  Board.latch { s with P2 := v }

/-- The value of `~x` once stored in 8 bits. -/
def not8 (x : Nat) : Nat := 0xff ^^^ (x % 256)

/-- The state the program starts in: `temp_1 = 0x00`, `temp_1_old = 0xff`,
`temp_2 = 0x00`, `temp_2_old = 0xff`; the ports and the two latches hold
whatever they hold. -/
def Board.init (p0 p2 led per : Nat) : Board :=
  { P0 := p0, P2 := p2, led := led, per := per, temp_1 := 0x00, temp_1_old := 0xff,
    temp_2 := 0x00, temp_2_old := 0xff, loads := [] }

/-- The byte `Led_Disp` packs from `ucLed[0..7]`, stored in 8 bits.  A read
past the end of the array, undefined in C, yields 0. -/
def pack (ucLed : List Nat) : Nat :=
  ((ucLed.getD 0 0 <<< 0) ||| (ucLed.getD 1 0 <<< 1) ||| (ucLed.getD 2 0 <<< 2)
    ||| (ucLed.getD 3 0 <<< 3) ||| (ucLed.getD 4 0 <<< 4) ||| (ucLed.getD 5 0 <<< 5)
    ||| (ucLed.getD 6 0 <<< 6) ||| (ucLed.getD 7 0 <<< 7)) % 256

/-- Function `Led_Disp(ucLed)`. -/
def Led_Disp (ucLed : List Nat) (s : Board) : Board :=
  let s := { s with temp_1 := 0x00 }
  let s := { s with temp_1 := pack ucLed }
  if s.temp_1 ≠ s.temp_1_old then
    let s := setP0 (not8 s.temp_1) s
    let temp := s.P2 &&& 0x1f
    let temp := temp ||| 0x80
    let s := setP2 temp s
    let temp := s.P2 &&& 0x1f
    let s := setP2 temp s
    { s with temp_1_old := s.temp_1 }
  else s

/-- Function `Led_Off()`. -/
def Led_Off (s : Board) : Board :=
  let s := setP0 0xff s
  let temp := s.P2 &&& 0x1f
  let temp := temp ||| 0x80
  let s := setP2 temp s
  let temp := s.P2 &&& 0x1f
  let s := setP2 temp s
  { s with temp_1_old := 0x00 }

/-- The second half of `Beep`, `Motor` and `Relay`, which is the same text in
the three: when `temp_2` differs from `temp_2_old`, P0 takes it, the latch of
decoder output Y5 is selected and released, and `temp_2_old` takes it. -/
def updatePer (s : Board) : Board :=
  if s.temp_2 ≠ s.temp_2_old then
    let s := setP0 s.temp_2 s
    let temp := s.P2 &&& 0x1f
    let temp := temp ||| 0xa0
    let s := setP2 temp s
    let temp := s.P2 &&& 0x1f
    let s := setP2 temp s
    { s with temp_2_old := s.temp_2 }
  else s

/-- Function `Beep(enable)`. -/
def Beep (enable : Bool) (s : Board) : Board :=
  let s := if enable then { s with temp_2 := s.temp_2 ||| 0x40 }
    else { s with temp_2 := s.temp_2 &&& not8 0x40 }
  if s.temp_2 ≠ s.temp_2_old then
    let s := setP0 s.temp_2 s
    let temp := s.P2 &&& 0x1f
    let temp := temp ||| 0xa0
    let s := setP2 temp s
    let temp := s.P2 &&& 0x1f
    let s := setP2 temp s
    { s with temp_2_old := s.temp_2 }
  else s

/-- Function `Motor(enable)`. -/
def Motor (enable : Bool) (s : Board) : Board :=
  let s := if enable then { s with temp_2 := s.temp_2 ||| 0x20 }
    else { s with temp_2 := s.temp_2 &&& not8 0x20 }
  if s.temp_2 ≠ s.temp_2_old then
    let s := setP0 s.temp_2 s
    let temp := s.P2 &&& 0x1f
    let temp := temp ||| 0xa0
    let s := setP2 temp s
    let temp := s.P2 &&& 0x1f
    let s := setP2 temp s
    { s with temp_2_old := s.temp_2 }
  else s

/-- Function `Relay(enable)`. -/
def Relay (enable : Bool) (s : Board) : Board :=
  let s := if enable then { s with temp_2 := s.temp_2 ||| 0x10 }
    else { s with temp_2 := s.temp_2 &&& not8 0x10 }
  if s.temp_2 ≠ s.temp_2_old then
    let s := setP0 s.temp_2 s
    let temp := s.P2 &&& 0x1f
    let temp := temp ||| 0xa0
    let s := setP2 temp s
    let temp := s.P2 &&& 0x1f
    let s := setP2 temp s
    { s with temp_2_old := s.temp_2 }
  else s

/-- One call of `Led_Disp` or `Led_Off`. -/
inductive LedCall where
  | disp (ucLed : List Nat)
  | off

/-- The board after one call of `Led_Disp` or `Led_Off`. -/
def LedCall.run : LedCall → Board → Board
  | LedCall.disp ucLed, s => Led_Disp ucLed s
  | LedCall.off, s => Led_Off s

/-- One call of `Beep`, `Motor` or `Relay`. -/
inductive PerCall where
  | beep (enable : Bool)
  | motor (enable : Bool)
  | relay (enable : Bool)

/-- The board after one call of `Beep`, `Motor` or `Relay`. -/
def PerCall.run : PerCall → Board → Board
  | PerCall.beep e, s => Beep e s
  | PerCall.motor e, s => Motor e s
  | PerCall.relay e, s => Relay e s

/-- The bit of `temp_2` a call is about. -/
def PerCall.bit : PerCall → Nat
  | PerCall.beep _ => 0x40
  | PerCall.motor _ => 0x20
  | PerCall.relay _ => 0x10

/-- The argument of a call. -/
def PerCall.enable : PerCall → Bool
  | PerCall.beep e => e
  | PerCall.motor e => e
  | PerCall.relay e => e

/-- The board after a finite sequence of calls of `Beep`, `Motor`, `Relay`. -/
def runPer (cs : List PerCall) (s : Board) : Board :=
  cs.foldl (fun s c => c.run s) s

/-- The board after a finite sequence of calls of `Led_Disp`, `Led_Off`. -/
def runLed (cs : List LedCall) (s : Board) : Board :=
  cs.foldl (fun s c => c.run s) s

/-- The shadow state of `Led_Disp` is in order: the LED latch holds the
complement of `temp_1_old`. -/
def LedInv (s : Board) : Prop :=
  s.led = not8 s.temp_1_old

/-- The shadow state of `Beep`, `Motor`, `Relay` is in order: `temp_2` only
has bits of 0x70, and either no call wrote yet (`temp_2_old = 0xff`) or
`temp_2_old`, `temp_2` and the latch agree. -/
def PerInv (s : Board) : Prop :=
  (∃ k, k < 8 ∧ s.temp_2 = 16 * k)
    ∧ (s.temp_2_old = 0xff ∨ (s.temp_2_old = s.temp_2 ∧ s.per = s.temp_2))

end Led

namespace Iic

/-! ## Signal level: closed forms -/

theorem I2C_Delay_loop_eq (n : Nat) (s : Pins) :
    I2C_Delay_loop n s = { s with nops := s.nops + 15 * (n + 1) } := by
  induction n generalizing s with
  | zero => simp [I2C_Delay_loop, I2C_Delay_body]
  | succ n ih =>
    simp only [I2C_Delay_loop, ih, I2C_Delay_body]
    congr 1
    omega

theorem I2C_Delay_eq (n : Nat) (s : Pins) :
    I2C_Delay n s =
      { s with nops := s.nops + 15 * (n + 1), log := s.log ++ [Pin.delay n] } := by
  simp [I2C_Delay, I2C_Delay_loop_eq]

theorem I2C_Delay_nops (n : Nat) (q : Pins) :
    (I2C_Delay n q).nops = q.nops + 15 * (n + 1) := by
  rw [I2C_Delay_eq]

theorem and_0x80_ne_zero (b : Nat) : (b &&& 0x80 ≠ 0) ↔ b.testBit 7 = true := by
  have h := Nat.and_two_pow b 7
  norm_num at h
  rw [h]
  cases b.testBit 7 <;> simp

theorem shl_one_mod (x : Nat) : (x <<< 1) % 256 = 2 * x % 256 := by
  rw [Nat.shiftLeft_eq]; omega

theorem lor_one (m : Nat) : (2 * m) ||| 1 = 2 * m + 1 := by
  have h := Nat.lor_bit false m true 0
  simpa [Nat.bit_val] using h

theorem I2CSendByte_body_eq (byt : Nat) (s : Pins) :
    I2CSendByte_body byt s =
      (2 * byt % 256,
       { scl := true, sda := byt.testBit 7, env := s.env, reads := s.reads,
         nops := s.nops + 270,
         log := s.log ++ [Pin.scl false, Pin.delay 5, Pin.sda (byt.testBit 7),
                          Pin.delay 5, Pin.scl true, Pin.delay 5] }) := by
  simp only [I2CSendByte_body, I2C_Delay_eq, DELAY_TIME, setScl, setSda, shl_one_mod,
    and_0x80_ne_zero]
  cases byt.testBit 7 <;> simp

theorem testBit_shifted (b : Nat) :
    (2 * b % 256).testBit 7 = b.testBit 6 ∧
    (2 * (2 * b % 256) % 256).testBit 7 = b.testBit 5 ∧
    (2 * (2 * (2 * b % 256) % 256) % 256).testBit 7 = b.testBit 4 ∧
    (2 * (2 * (2 * (2 * b % 256) % 256) % 256) % 256).testBit 7 = b.testBit 3 ∧
    (2 * (2 * (2 * (2 * (2 * b % 256) % 256) % 256) % 256) % 256).testBit 7 = b.testBit 2 ∧
    (2 * (2 * (2 * (2 * (2 * (2 * b % 256) % 256) % 256) % 256) % 256) % 256).testBit 7
      = b.testBit 1 ∧
    (2 * (2 * (2 * (2 * (2 * (2 * (2 * b % 256) % 256) % 256) % 256) % 256) % 256) % 256).testBit 7
      = b.testBit 0 := by
  simp only [Nat.testBit_to_div_mod, Nat.reducePow, decide_eq_decide]
  refine ⟨?_, ?_, ?_, ?_, ?_, ?_, ?_⟩ <;> omega

theorem I2CSendByte_eq (b : Nat) (s : Pins) :
    I2CSendByte b s =
      { scl := false, sda := b.testBit 0, env := s.env, reads := s.reads,
        nops := s.nops + 2160,
        log := s.log ++ ((List.range 8).flatMap (fun j =>
                 [Pin.scl false, Pin.delay 5, Pin.sda (b.testBit (7 - j)),
                  Pin.delay 5, Pin.scl true, Pin.delay 5]) ++ [Pin.scl false]) } := by
  obtain ⟨h6, h5, h4, h3, h2, h1, h0⟩ := testBit_shifted b
  simp only [I2CSendByte, I2CSendByte_loop, I2CSendByte_body_eq, setScl, h6, h5, h4, h3, h2, h1, h0]
  simp [List.range, List.range.loop, List.flatMap]

theorem I2CReceiveByte_body_eq (da : Nat) (s : Pins) :
    I2CReceiveByte_body da s =
      (2 * (da % 128) + (s.env s.reads).toNat,
       { scl := false, sda := s.sda, env := s.env, reads := s.reads + 1,
         nops := s.nops + 180,
         log := s.log ++ [Pin.scl true, Pin.delay 5, Pin.rd (s.env s.reads),
                          Pin.scl false, Pin.delay 5] }) := by
  have h : (da <<< 1) % 256 = 2 * (da % 128) := by
    rw [Nat.shiftLeft_eq]; omega
  simp only [I2CReceiveByte_body, I2C_Delay_eq, DELAY_TIME, setScl, getSda, h]
  cases s.env s.reads <;> simp [lor_one]

theorem I2CReceiveByte_eq (da0 : Nat) (s : Pins) :
    I2CReceiveByte da0 s =
      (128 * (s.env s.reads).toNat + 64 * (s.env (s.reads + 1)).toNat
        + 32 * (s.env (s.reads + 2)).toNat + 16 * (s.env (s.reads + 3)).toNat
        + 8 * (s.env (s.reads + 4)).toNat + 4 * (s.env (s.reads + 5)).toNat
        + 2 * (s.env (s.reads + 6)).toNat + (s.env (s.reads + 7)).toNat,
       { scl := false, sda := s.sda, env := s.env, reads := s.reads + 8,
         nops := s.nops + 1440,
         log := s.log ++ (List.range 8).flatMap (fun j =>
                 [Pin.scl true, Pin.delay 5, Pin.rd (s.env (s.reads + j)),
                  Pin.scl false, Pin.delay 5]) }) := by
  simp only [I2CReceiveByte, I2CReceiveByte_loop, I2CReceiveByte_body_eq]
  refine Prod.ext ?_ ?_
  · have h0 := Bool.toNat_le (s.env s.reads)
    have h1 := Bool.toNat_le (s.env (s.reads + 1))
    have h2 := Bool.toNat_le (s.env (s.reads + 1 + 1))
    have h3 := Bool.toNat_le (s.env (s.reads + 1 + 1 + 1))
    have h4 := Bool.toNat_le (s.env (s.reads + 1 + 1 + 1 + 1))
    have h5 := Bool.toNat_le (s.env (s.reads + 1 + 1 + 1 + 1 + 1))
    have h6 := Bool.toNat_le (s.env (s.reads + 1 + 1 + 1 + 1 + 1 + 1))
    have h7 := Bool.toNat_le (s.env (s.reads + 1 + 1 + 1 + 1 + 1 + 1 + 1))
    simp only [Nat.add_assoc, Nat.reduceAdd] at h0 h1 h2 h3 h4 h5 h6 h7 ⊢
    omega
  · simp [List.range, List.range.loop, List.flatMap, Nat.add_assoc]

/-! ## Reading a pin log: lemmas -/

theorem emitted_append (s t : Pins) (evs : List Pin) (h : t.log = s.log ++ evs) :
    emitted s t = evs := by
  simp [emitted, h]

theorem byte_of_bits (a0 a1 a2 a3 a4 a5 a6 a7 : Bool) :
    (List.range 8).map (fun k =>
        (128 * a0.toNat + 64 * a1.toNat + 32 * a2.toNat + 16 * a3.toNat
          + 8 * a4.toNat + 4 * a5.toNat + 2 * a6.toNat + a7.toNat).testBit (7 - k))
      = [a0, a1, a2, a3, a4, a5, a6, a7] := by
  cases a0 <;> cases a1 <;> cases a2 <;> cases a3 <;> cases a4 <;> cases a5
    <;> cases a6 <;> cases a7 <;> decide

theorem I2CSendByte_edges (b : Nat) (s : Pins) :
    risingEdges s.scl s.sda (emitted s (I2CSendByte b s))
      = (List.range 8).map (fun k => b.testBit (7 - k)) := by
  have h : emitted s (I2CSendByte b s) = _ :=
    emitted_append s _ _ (by rw [I2CSendByte_eq])
  rw [h]
  simp [List.range, List.range.loop, List.flatMap, risingEdges]

/-! ## The recording bus: lemmas -/

theorem take_succ_set (l : List Nat) (p v : Nat) (h : p < l.length) :
    (l.set p v).take (p + 1) = l.take p ++ [v] := by
  rw [List.set_eq_take_append_cons_drop, if_pos h]
  have hl : (List.take p l).length = p := by
    simp only [List.length_take]; omega
  rw [List.take_append_eq_append_take, hl]
  simp

theorem drop_succ_set (l : List Nat) (p n v : Nat) :
    (l.set p v).drop (p + 1 + n) = l.drop (p + (n + 1)) := by
  rw [List.drop_set_of_lt _ _ (by omega)]
  congr 1
  omega

@[simp] theorem recording_I2C_Delay {σ : Type} (B : I2CBus σ) (n : Nat) (st : σ × Trace) :
    (recording B).I2C_Delay n st = (B.I2C_Delay n st.1, st.2.call (Op.delay n)) := rfl

@[simp] theorem recording_I2CStart {σ : Type} (B : I2CBus σ) (st : σ × Trace) :
    (recording B).I2CStart st = (B.I2CStart st.1, st.2.call Op.start) := rfl

@[simp] theorem recording_I2CStop {σ : Type} (B : I2CBus σ) (st : σ × Trace) :
    (recording B).I2CStop st = (B.I2CStop st.1, st.2.call Op.stop) := rfl

@[simp] theorem recording_I2CSendByte {σ : Type} (B : I2CBus σ) (b : Nat) (st : σ × Trace) :
    (recording B).I2CSendByte b st = (B.I2CSendByte b st.1, st.2.call (Op.send b)) := rfl

@[simp] theorem recording_I2CReceiveByte {σ : Type} (B : I2CBus σ) (st : σ × Trace) :
    (recording B).I2CReceiveByte st
      = ((B.I2CReceiveByte st.1).1, ((B.I2CReceiveByte st.1).2,
          { ops := st.2.ops ++ [Op.receive], rx := st.2.rx ++ [(B.I2CReceiveByte st.1).1] })) :=
  rfl

@[simp] theorem recording_I2CWaitAck {σ : Type} (B : I2CBus σ) (st : σ × Trace) :
    (recording B).I2CWaitAck st
      = ((B.I2CWaitAck st.1).1, ((B.I2CWaitAck st.1).2, st.2.call Op.waitAck)) := rfl

@[simp] theorem recording_I2CSendAck {σ : Type} (B : I2CBus σ) (a : Nat) (st : σ × Trace) :
    (recording B).I2CSendAck a st = (B.I2CSendAck a st.1, st.2.call (Op.sendAck a)) := rfl

@[simp] theorem Trace_call_ops (t : Trace) (o : Op) : (t.call o).ops = t.ops ++ [o] := rfl

@[simp] theorem Trace_call_rx (t : Trace) (o : Op) : (t.call o).rx = t.rx := rfl

@[simp] theorem Trace_empty_ops : Trace.empty.ops = [] := rfl

@[simp] theorem Trace_empty_rx : Trace.empty.rx = [] := rfl

theorem recording_sendAck_ite {σ : Type} (B : I2CBus σ) (c : Prop) [Decidable c]
    (st : σ × Trace) :
    (if c then (recording B).I2CSendAck 0 st else (recording B).I2CSendAck 1 st)
      = (B.I2CSendAck (if c then 0 else 1) st.1,
         st.2.call (Op.sendAck (if c then 0 else 1))) := by
  split <;> rfl

theorem EEPROM_Read_loop_rec {σ : Type} (B : I2CBus σ) (n : Nat) :
    ∀ (mem : List Nat) (p : Nat) (st : σ × Trace), p + n ≤ mem.length →
      ∃ bytes : List Nat, bytes.length = n ∧
        (EEPROM_Read_loop (recording B) n mem p st).2.2.rx = st.2.rx ++ bytes ∧
        (EEPROM_Read_loop (recording B) n mem p st).1
          = mem.take p ++ bytes ++ mem.drop (p + n) := by
  induction n with
  | zero =>
    intro mem p st _
    exact ⟨[], rfl, by simp [EEPROM_Read_loop], by simp [EEPROM_Read_loop]⟩
  | succ n ih =>
    intro mem p st hp
    have hp2 : p < mem.length := by omega
    simp only [EEPROM_Read_loop, recording_sendAck_ite]
    generalize hv : ((recording B).I2CReceiveByte st).1 = v
    have hrx1 : ((recording B).I2CReceiveByte st).2.2.rx = st.2.rx ++ [v] := by
      rw [← hv]; rfl
    generalize hst1 : (B.I2CSendAck (if n ≠ 0 then 0 else 1) ((recording B).I2CReceiveByte st).2.1,
      ((recording B).I2CReceiveByte st).2.2.call (Op.sendAck (if n ≠ 0 then 0 else 1))) = st1
    have hrx2 : st1.2.rx = st.2.rx ++ [v] := by
      rw [← hst1]; exact hrx1
    obtain ⟨bytes, hb, hrx, hmem⟩ := ih (mem.set p v) (p + 1) st1 (by
      simp only [List.length_set]; omega)
    refine ⟨v :: bytes, by simp [hb], ?_, ?_⟩
    · rw [hrx, hrx2]; simp
    · rw [hmem, take_succ_set mem p v hp2, drop_succ_set]; simp

theorem EEPROM_Read_loop_ops {σ : Type} (B : I2CBus σ) (n : Nat) :
    ∀ (mem : List Nat) (p : Nat) (st : σ × Trace),
      (EEPROM_Read_loop (recording B) (n + 1) mem p st).2.2.ops
        = st.2.ops ++ (List.replicate n [Op.receive, Op.sendAck 0]).flatten
            ++ [Op.receive, Op.sendAck 1] := by
  induction n with
  | zero =>
    intro mem p st
    simp [EEPROM_Read_loop, recording, Trace.call]
  | succ n ih =>
    intro mem p st
    rw [EEPROM_Read_loop, recording_sendAck_ite, ih]
    simp [recording, Trace.call, List.replicate_succ]

theorem EEPROM_Write_loop_rec {σ : Type} (B : I2CBus σ) (n : Nat) :
    ∀ (mem : List Nat) (p : Nat) (st : σ × Trace), p + n ≤ mem.length →
      (EEPROM_Write_loop (recording B) n mem p st).2.2.ops
          = st.2.ops ++ ((mem.drop p).take n).flatMap
              (fun b => [Op.send b, Op.waitAck, Op.delay 200]) ∧
        (EEPROM_Write_loop (recording B) n mem p st).2.2.rx = st.2.rx ∧
        (EEPROM_Write_loop (recording B) n mem p st).1 = mem := by
  induction n with
  | zero =>
    intro mem p st _
    simp [EEPROM_Write_loop]
  | succ n ih =>
    intro mem p st hp
    have hp2 : p < mem.length := by omega
    rw [EEPROM_Write_loop]
    obtain ⟨h1, h2, h3⟩ := ih mem (p + 1)
      ((recording B).I2C_Delay 200
        ((recording B).I2CWaitAck ((recording B).I2CSendByte (mem.getD p 0) st)).2) (by omega)
    refine ⟨?_, ?_, h3⟩
    · rw [h1, List.drop_eq_getElem_cons hp2, List.take_succ_cons, List.flatMap_cons]
      simp [recording, Trace.call, List.getD_eq_getElem?_getD, hp2]
    · rw [h2]; rfl

theorem EEPROM_Read_loop_erase {σ : Type} (B : I2CBus σ) (n : Nat) :
    ∀ (mem : List Nat) (p : Nat) (st : σ × Trace),
      (EEPROM_Read_loop (recording B) n mem p st).1 = (EEPROM_Read_loop B n mem p st.1).1 ∧
      (EEPROM_Read_loop (recording B) n mem p st).2.1 = (EEPROM_Read_loop B n mem p st.1).2 := by
  induction n with
  | zero => intro mem p st; simp [EEPROM_Read_loop]
  | succ n ih =>
    intro mem p st
    rw [EEPROM_Read_loop, EEPROM_Read_loop, recording_sendAck_ite]
    obtain ⟨h1, h2⟩ := ih (mem.set p ((recording B).I2CReceiveByte st).1) (p + 1)
      (B.I2CSendAck (if n ≠ 0 then 0 else 1) ((recording B).I2CReceiveByte st).2.1,
        ((recording B).I2CReceiveByte st).2.2.call (Op.sendAck (if n ≠ 0 then 0 else 1)))
    rw [h1, h2]
    by_cases hn : n = 0 <;> simp [hn]

theorem EEPROM_Write_loop_erase {σ : Type} (B : I2CBus σ) (n : Nat) :
    ∀ (mem : List Nat) (p : Nat) (st : σ × Trace),
      (EEPROM_Write_loop (recording B) n mem p st).1 = (EEPROM_Write_loop B n mem p st.1).1 ∧
      (EEPROM_Write_loop (recording B) n mem p st).2.1 = (EEPROM_Write_loop B n mem p st.1).2 := by
  induction n with
  | zero => intro mem p st; simp [EEPROM_Write_loop]
  | succ n ih =>
    intro mem p st
    rw [EEPROM_Write_loop, EEPROM_Write_loop]
    obtain ⟨h1, h2⟩ := ih mem (p + 1) ((recording B).I2C_Delay 200
        ((recording B).I2CWaitAck ((recording B).I2CSendByte (mem.getD p 0) st)).2)
    rw [h1, h2]
    simp

theorem recording_erase {σ : Type} (B : I2CBus σ) (str : List Nat) (a n : Nat)
    (st : σ × Trace) :
    ((EEPROM_Read (recording B) str a n st).1 = (EEPROM_Read B str a n st.1).1 ∧
      (EEPROM_Read (recording B) str a n st).2.1 = (EEPROM_Read B str a n st.1).2) ∧
    ((EEPROM_Write (recording B) str a n st).1 = (EEPROM_Write B str a n st.1).1 ∧
      (EEPROM_Write (recording B) str a n st).2.1 = (EEPROM_Write B str a n st.1).2) ∧
    ((Ad_Read (recording B) a st).1 = (Ad_Read B a st.1).1 ∧
      (Ad_Read (recording B) a st).2.1 = (Ad_Read B a st.1).2) ∧
    (Da_Write (recording B) a st).1 = Da_Write B a st.1 := by
  refine ⟨?_, ?_, ?_, ?_⟩
  · simp only [EEPROM_Read, recording_I2CStop]
    rw [(EEPROM_Read_loop_erase B n _ _ _).1, (EEPROM_Read_loop_erase B n _ _ _).2]
    exact ⟨rfl, rfl⟩
  · simp only [EEPROM_Write, recording_I2CStop, recording_I2C_Delay]
    rw [(EEPROM_Write_loop_erase B n _ _ _).1, (EEPROM_Write_loop_erase B n _ _ _).2]
    exact ⟨rfl, rfl⟩
  · simp [Ad_Read]
  · simp [Da_Write]

theorem count_nack_flatten (n : Nat) :
    List.count (Op.sendAck 1) (List.replicate n [Op.receive, Op.sendAck 0]).flatten = 0 := by
  induction n with
  | zero => simp
  | succ n ih =>
    rw [List.replicate_succ, List.flatten_cons, List.count_append, ih]
    decide

/-! ## The claims -/

/-- C1: for every bus `B` and bus state, every start address, every count `n`
and every array `str` of at least `n` bytes, after `EEPROM_Read(str, addr, n)`
exactly `n` bytes were returned by `I2CReceiveByte` during the call, and the
array is these `n` bytes in the order received followed by the entries of
`str` from index `n` on, unchanged; the recorded run leaves the same array as
the plain run. -/
theorem EEPROM_Read_buffer {σ : Type} (B : I2CBus σ) (str : List Nat) (addr n : Nat) (s : σ)
    (hn : n ≤ str.length) :
    (EEPROM_Read (recording B) str addr n (s, Trace.empty)).2.2.rx.length = n
    ∧ (EEPROM_Read (recording B) str addr n (s, Trace.empty)).1
        = (EEPROM_Read (recording B) str addr n (s, Trace.empty)).2.2.rx ++ str.drop n
    ∧ (EEPROM_Read B str addr n s).1
        = (EEPROM_Read (recording B) str addr n (s, Trace.empty)).1 := by
  refine ⟨?_, ?_, ((recording_erase B str addr n (s, Trace.empty)).1.1).symm⟩
  all_goals
    simp only [EEPROM_Read, recording_I2CStop, Trace_call_rx]
    generalize hst : ((recording B).I2CWaitAck ((recording B).I2CSendByte 0xa1
      ((recording B).I2CStart ((recording B).I2CWaitAck ((recording B).I2CSendByte addr
        ((recording B).I2CWaitAck ((recording B).I2CSendByte 0xa0
          ((recording B).I2CStart (s, Trace.empty)))).2)).2))).2 = st
    have hrx0 : st.2.rx = [] := by rw [← hst]; rfl
    obtain ⟨bytes, hb, hrx, hmem⟩ := EEPROM_Read_loop_rec B n str 0 st (by omega)
    rw [hrx, hrx0]
  · simp [hb]
  · rw [hmem]; simp

theorem EEPROM_Read_buffer_witness :
    3 ≤ [7, 7, 7, 7].length ∧
    (EEPROM_Read (recording (pinBus 0)) [7, 7, 7, 7] 0x10 3
        (idlePins (fun _ => true), Trace.empty)).1
      = (EEPROM_Read (recording (pinBus 0)) [7, 7, 7, 7] 0x10 3
          (idlePins (fun _ => true), Trace.empty)).2.2.rx ++ [7] :=
  ⟨by decide, (EEPROM_Read_buffer (pinBus 0) [7, 7, 7, 7] 0x10 3 (idlePins (fun _ => true))
    (by decide)).2.1⟩

/-- C2: for every start address and every count `n ≥ 1`, the bus operations
issued by `EEPROM_Read` are start, send 0xa0, wait-ack, send addr, wait-ack,
start, send 0xa1, wait-ack, then `n - 1` times (receive, send-ack 0), then
receive, send-ack 1, stop; the not-acknowledge occurs exactly once. -/
theorem EEPROM_Read_ops {σ : Type} (B : I2CBus σ) (str : List Nat) (addr n : Nat) (s : σ)
    (hn : 1 ≤ n) :
    (EEPROM_Read (recording B) str addr n (s, Trace.empty)).2.2.ops
        = [Op.start, Op.send 0xa0, Op.waitAck, Op.send addr, Op.waitAck,
            Op.start, Op.send 0xa1, Op.waitAck]
          ++ (List.replicate (n - 1) [Op.receive, Op.sendAck 0]).flatten
          ++ [Op.receive, Op.sendAck 1, Op.stop]
    ∧ List.count (Op.sendAck 1)
        (EEPROM_Read (recording B) str addr n (s, Trace.empty)).2.2.ops = 1 := by
  obtain ⟨m, rfl⟩ : ∃ m, n = m + 1 := ⟨n - 1, by omega⟩
  have h : (EEPROM_Read (recording B) str addr (m + 1) (s, Trace.empty)).2.2.ops
        = [Op.start, Op.send 0xa0, Op.waitAck, Op.send addr, Op.waitAck,
            Op.start, Op.send 0xa1, Op.waitAck]
          ++ (List.replicate m [Op.receive, Op.sendAck 0]).flatten
          ++ [Op.receive, Op.sendAck 1, Op.stop] := by
    simp only [EEPROM_Read, recording_I2CStop, Trace_call_ops, EEPROM_Read_loop_ops]
    simp
  refine ⟨by simpa using h, ?_⟩
  rw [h, List.count_append, List.count_append, count_nack_flatten]
  simp [List.count_cons]

theorem EEPROM_Read_ops_witness :
    1 ≤ 3 ∧
    (EEPROM_Read (recording (pinBus 0)) [0, 0, 0] 0x10 3
        (idlePins (fun _ => true), Trace.empty)).2.2.ops
      = [Op.start, Op.send 0xa0, Op.waitAck, Op.send 0x10, Op.waitAck,
          Op.start, Op.send 0xa1, Op.waitAck]
        ++ (List.replicate (3 - 1) [Op.receive, Op.sendAck 0]).flatten
        ++ [Op.receive, Op.sendAck 1, Op.stop] :=
  ⟨by decide, (EEPROM_Read_ops (pinBus 0) [0, 0, 0] 0x10 3 (idlePins (fun _ => true))
    (by decide)).1⟩

/-- C3: for every start address, every count `n` and every array `str` of at
least `n` bytes, the bus operations issued by `EEPROM_Write` are start, send
0xa0, wait-ack, send addr, wait-ack, then for each of the first `n` bytes of
`str` in order (send the byte, wait-ack, `I2C_Delay(200)`), then stop, then
ten times `I2C_Delay(255)`; the loop runs `n` times; the array is returned as
it was; on the pins one `I2C_Delay(200)` is 15 * 201 `_nop_()`, fewer than
the 15 * 2560 of the ten calls after the stop. -/
theorem EEPROM_Write_ops {σ : Type} (B : I2CBus σ) (str : List Nat) (addr n : Nat) (s : σ)
    (hn : n ≤ str.length) :
    (EEPROM_Write (recording B) str addr n (s, Trace.empty)).2.2.ops
        = [Op.start, Op.send 0xa0, Op.waitAck, Op.send addr, Op.waitAck]
          ++ (str.take n).flatMap (fun b => [Op.send b, Op.waitAck, Op.delay 200])
          ++ [Op.stop] ++ List.replicate 10 (Op.delay 255)
    ∧ (str.take n).length = n
    ∧ (EEPROM_Write (recording B) str addr n (s, Trace.empty)).1 = str
    ∧ (EEPROM_Write B str addr n s).1 = str
    ∧ (∀ q : Pins, (I2C_Delay 200 q).nops - q.nops = 15 * 201)
    ∧ (∀ q : Pins, (I2C_Delay 200 q).nops - q.nops
        < (List.foldl (fun q k => I2C_Delay k q) q (List.replicate 10 255)).nops - q.nops)
    ∧ (∀ q : Pins,
        (List.foldl (fun q k => I2C_Delay k q) q (List.replicate 10 255)).nops - q.nops
          = 15 * 2560) := by
  have hw := fun st => EEPROM_Write_loop_rec B n str 0 st (by omega)
  have he := (recording_erase B str addr n (s, Trace.empty)).2.1.1
  have h3 : (EEPROM_Write (recording B) str addr n (s, Trace.empty)).1 = str := by
    simp only [EEPROM_Write]
    exact (hw _).2.2
  refine ⟨?_, ?_, h3, ?_, ?_, ?_, ?_⟩
  · simp only [EEPROM_Write, recording_I2CStop, recording_I2C_Delay, Trace_call_ops, (hw _).1]
    simp [List.replicate]
  · simp [hn]
  · rw [← he, h3]
  · intro q; rw [I2C_Delay_nops]; omega
  · intro q
    simp only [List.replicate, List.foldl, I2C_Delay_nops]
    omega
  · intro q
    simp only [List.replicate, List.foldl, I2C_Delay_nops]
    omega

theorem EEPROM_Write_ops_witness :
    2 ≤ [0x11, 0x22, 0x33].length ∧
    (EEPROM_Write (recording (pinBus 0)) [0x11, 0x22, 0x33] 0x10 2
        (idlePins (fun _ => true), Trace.empty)).2.2.ops
      = [Op.start, Op.send 0xa0, Op.waitAck, Op.send 0x10, Op.waitAck]
        ++ ([0x11, 0x22, 0x33].take 2).flatMap (fun b => [Op.send b, Op.waitAck, Op.delay 200])
        ++ [Op.stop] ++ List.replicate 10 (Op.delay 255) :=
  ⟨by decide, (EEPROM_Write_ops (pinBus 0) [0x11, 0x22, 0x33] 0x10 2 (idlePins (fun _ => true))
    (by decide)).1⟩

/-- C5: for every control byte `c`, the bus operations issued by `Ad_Read(c)`
are start, send 0x90, wait-ack, send `c`, wait-ack, start, send 0x91,
wait-ack, receive, send-ack 1, stop: two starts, one not-acknowledge (just
before the stop), no acknowledge; the value returned is the byte
`I2CReceiveByte` returned.  For `c = 0x03` bit 6 is clear and the channel
bits are 11. -/
theorem Ad_Read_ops {σ : Type} (B : I2CBus σ) (c : Nat) (s : σ) :
    (Ad_Read (recording B) c (s, Trace.empty)).2.2.ops
        = [Op.start, Op.send 0x90, Op.waitAck, Op.send c, Op.waitAck,
            Op.start, Op.send 0x91, Op.waitAck, Op.receive, Op.sendAck 1, Op.stop]
    ∧ List.count Op.start (Ad_Read (recording B) c (s, Trace.empty)).2.2.ops = 2
    ∧ List.count (Op.sendAck 1) (Ad_Read (recording B) c (s, Trace.empty)).2.2.ops = 1
    ∧ List.count (Op.sendAck 0) (Ad_Read (recording B) c (s, Trace.empty)).2.2.ops = 0
    ∧ (Ad_Read (recording B) c (s, Trace.empty)).2.2.rx
        = [(Ad_Read (recording B) c (s, Trace.empty)).1]
    ∧ (Ad_Read B c s).1 = (Ad_Read (recording B) c (s, Trace.empty)).1
    ∧ (0x03 &&& 0x40 = 0 ∧ 0x03 &&& 0x03 = 3) := by
  have h : (Ad_Read (recording B) c (s, Trace.empty)).2.2.ops
        = [Op.start, Op.send 0x90, Op.waitAck, Op.send c, Op.waitAck,
            Op.start, Op.send 0x91, Op.waitAck, Op.receive, Op.sendAck 1, Op.stop] := by
    simp [Ad_Read]
  refine ⟨h, ?_, ?_, ?_, by simp [Ad_Read], by simp [Ad_Read], by decide⟩
  · rw [h]
    by_cases h1 : c = 0 <;> simp [List.count_cons]
  · rw [h]; simp [List.count_cons]
  · rw [h]; simp [List.count_cons]

/-- C6: what the code does where the claim expects a stop: for every value
`v` the bus operations issued by `Da_Write(v)` are start, send 0x90, wait-ack,
send 0x41, wait-ack, send `v`, wait-ack and nothing more; no stop is issued,
on the pins the clock latch is left low, and `Da_Write(0)` followed by
`Da_Write(255)` issues no stop at all. -/
theorem Da_Write_no_stop {σ : Type} (B : I2CBus σ) (v : Nat) (s : σ) (da0 : Nat) (q : Pins) :
    (Da_Write (recording B) v (s, Trace.empty)).2.ops
        = [Op.start, Op.send 0x90, Op.waitAck, Op.send 0x41, Op.waitAck,
            Op.send v, Op.waitAck]
    ∧ List.count Op.stop (Da_Write (recording B) v (s, Trace.empty)).2.ops = 0
    ∧ (Da_Write (pinBus da0) v q).scl = false
    ∧ List.count Op.stop
        (Da_Write (recording B) 255 (Da_Write (recording B) 0 (s, Trace.empty))).2.ops = 0 := by
  have h : (Da_Write (recording B) v (s, Trace.empty)).2.ops
        = [Op.start, Op.send 0x90, Op.waitAck, Op.send 0x41, Op.waitAck,
            Op.send v, Op.waitAck] := by
    simp [Da_Write]
  have h2 : (Da_Write (recording B) 255 (Da_Write (recording B) 0 (s, Trace.empty))).2.ops
        = [Op.start, Op.send 0x90, Op.waitAck, Op.send 0x41, Op.waitAck,
            Op.send 0, Op.waitAck, Op.start, Op.send 0x90, Op.waitAck, Op.send 0x41,
            Op.waitAck, Op.send 255, Op.waitAck] := by
    simp [Da_Write]
  refine ⟨h, ?_, ?_, ?_⟩
  · rw [h]; simp [List.count_cons]
  · simp [Da_Write, pinBus, I2CWaitAck, I2C_Delay_eq, setScl]
  · rw [h2]; decide

/-- C7: for every byte `b` and every prior state of the pins,
`I2CSendByte(b)` makes exactly 8 rising clock edges, the data latch at the
`k`-th of them holds bit `7 - k` of `b`; each of its 8 writes of the data
latch is made while the clock latch is low; on return the clock latch is
low. -/
theorem I2CSendByte_msb_first (b : Nat) (s : Pins) :
    risingEdges s.scl s.sda (emitted s (I2CSendByte b s))
        = (List.range 8).map (fun k => b.testBit (7 - k))
      ∧ (risingEdges s.scl s.sda (emitted s (I2CSendByte b s))).length = 8
      ∧ clockAtDataWrites s.scl (emitted s (I2CSendByte b s)) = List.replicate 8 false
      ∧ (I2CSendByte b s).scl = false := by
  have he := I2CSendByte_edges b s
  have h : emitted s (I2CSendByte b s) = _ :=
    emitted_append s _ _ (by rw [I2CSendByte_eq])
  refine ⟨he, ?_, ?_, ?_⟩
  · rw [he]; simp
  · rw [h]
    simp [List.range, List.range.loop, List.flatMap, clockAtDataWrites, List.replicate]
  · rw [I2CSendByte_eq]

/-- C8: for every 8 sampled values and every initial content `da0` of the
accumulator, bit `7 - k` of the byte `I2CReceiveByte` returns is the `k`-th
sample; the byte is below 256; the outcome is the same for every other
initial content; each of the 8 samples is taken while the clock latch is
high; the data latch is never written and keeps its value. -/
theorem I2CReceiveByte_msb_first (da0 : Nat) (s : Pins) :
    (List.range 8).map (fun k => (I2CReceiveByte da0 s).1.testBit (7 - k))
        = (List.range 8).map (fun k => s.env (s.reads + k))
      ∧ (I2CReceiveByte da0 s).1 < 256
      ∧ (∀ da1 : Nat, I2CReceiveByte da1 s = I2CReceiveByte da0 s)
      ∧ clockAtSamples s.scl (emitted s (I2CReceiveByte da0 s).2) = List.replicate 8 true
      ∧ clockAtDataWrites s.scl (emitted s (I2CReceiveByte da0 s).2) = []
      ∧ (I2CReceiveByte da0 s).2.sda = s.sda := by
  have h : emitted s (I2CReceiveByte da0 s).2 = _ :=
    emitted_append s _ _ (by rw [I2CReceiveByte_eq])
  rw [h]
  refine ⟨?_, ?_, ?_, ?_, ?_, ?_⟩
  · rw [I2CReceiveByte_eq]
    simp only [byte_of_bits]
    simp [List.range, List.range.loop]
  · rw [I2CReceiveByte_eq]
    have h0 := Bool.toNat_le (s.env s.reads)
    have h1 := Bool.toNat_le (s.env (s.reads + 1))
    have h2 := Bool.toNat_le (s.env (s.reads + 2))
    have h3 := Bool.toNat_le (s.env (s.reads + 3))
    have h4 := Bool.toNat_le (s.env (s.reads + 4))
    have h5 := Bool.toNat_le (s.env (s.reads + 5))
    have h6 := Bool.toNat_le (s.env (s.reads + 6))
    have h7 := Bool.toNat_le (s.env (s.reads + 7))
    simp only
    omega
  · intro da1
    rw [I2CReceiveByte_eq, I2CReceiveByte_eq]
  · simp [List.range, List.range.loop, List.flatMap, clockAtSamples, List.replicate]
  · simp [List.range, List.range.loop, List.flatMap, clockAtDataWrites]
  · rw [I2CReceiveByte_eq]

/-- C9: for every byte `b`, when the 8 values `I2CReceiveByte` samples are
the data latch values `I2CSendByte(b)` presents at its 8 rising clock edges,
in order, `I2CReceiveByte` returns `b`. -/
theorem loopback_round_trip (b : Nat) (hb : b < 256) (da0 : Nat) (s r : Pins)
    (h : (List.range 8).map (fun k => r.env (r.reads + k))
          = risingEdges s.scl s.sda (emitted s (I2CSendByte b s))) :
    (I2CReceiveByte da0 r).1 = b := by
  rw [I2CSendByte_edges b s] at h
  simp only [List.range, List.range.loop, List.map, List.cons.injEq, and_true,
    Nat.add_zero, Nat.sub_zero, Nat.reduceSub] at h
  obtain ⟨h0, h1, h2, h3, h4, h5, h6, h7⟩ := h
  rw [I2CReceiveByte_eq]
  simp only [h0, h1, h2, h3, h4, h5, h6, h7, Nat.toNat_testBit, Nat.reducePow]
  omega

theorem loopback_round_trip_witness :
    (List.range 8).map (fun k =>
        (idlePins (fun k => Nat.testBit 0xa5 (7 - k))).env
          ((idlePins (fun k => Nat.testBit 0xa5 (7 - k))).reads + k))
      = risingEdges (idlePins (fun _ => true)).scl (idlePins (fun _ => true)).sda
          (emitted (idlePins (fun _ => true)) (I2CSendByte 0xa5 (idlePins (fun _ => true))))
    ∧ (I2CReceiveByte 0 (idlePins (fun k => Nat.testBit 0xa5 (7 - k)))).1 = 0xa5 :=
  ⟨by decide, loopback_round_trip 0xa5 (by decide) 0 (idlePins (fun _ => true))
      (idlePins (fun k => Nat.testBit 0xa5 (7 - k))) (by decide)⟩

/-- C10: with count 0, `EEPROM_Write` issues start, send 0xa0, wait-ack,
send addr, wait-ack, stop (then its ten delays) and `EEPROM_Read` issues
start, send 0xa0, wait-ack, send addr, wait-ack, start, send 0xa1, wait-ack,
stop: no data byte is sent or received and no send-ack is issued; the array
is returned as it was and the run is the same for any other array. -/
theorem EEPROM_count_zero {σ : Type} (B : I2CBus σ) (str other : List Nat) (addr : Nat)
    (s : σ) :
    ((EEPROM_Write (recording B) str addr 0 (s, Trace.empty)).2.2.ops
        = [Op.start, Op.send 0xa0, Op.waitAck, Op.send addr, Op.waitAck, Op.stop]
            ++ List.replicate 10 (Op.delay 255)
      ∧ (EEPROM_Write (recording B) str addr 0 (s, Trace.empty)).2.2.rx = []
      ∧ (EEPROM_Write (recording B) str addr 0 (s, Trace.empty)).1 = str
      ∧ (EEPROM_Write (recording B) other addr 0 (s, Trace.empty)).2
          = (EEPROM_Write (recording B) str addr 0 (s, Trace.empty)).2)
    ∧ ((EEPROM_Read (recording B) str addr 0 (s, Trace.empty)).2.2.ops
        = [Op.start, Op.send 0xa0, Op.waitAck, Op.send addr, Op.waitAck,
            Op.start, Op.send 0xa1, Op.waitAck, Op.stop]
      ∧ (EEPROM_Read (recording B) str addr 0 (s, Trace.empty)).2.2.rx = []
      ∧ (EEPROM_Read (recording B) str addr 0 (s, Trace.empty)).1 = str
      ∧ (EEPROM_Read (recording B) other addr 0 (s, Trace.empty)).2
          = (EEPROM_Read (recording B) str addr 0 (s, Trace.empty)).2) := by
  refine ⟨⟨?_, ?_, ?_, ?_⟩, ⟨?_, ?_, ?_, ?_⟩⟩
  all_goals
    simp [EEPROM_Write, EEPROM_Write_loop, EEPROM_Read, EEPROM_Read_loop, List.replicate]

/-! ## Signal level: closed forms of the framing and acknowledgement functions -/

theorem I2CStart_eq (s : Pins) :
    I2CStart s =
      { scl := false, sda := false, env := s.env, reads := s.reads, nops := s.nops + 180,
        log := s.log ++ [Pin.sda true, Pin.scl true, Pin.delay 5, Pin.sda false,
                         Pin.delay 5, Pin.scl false] } := by
  simp [I2CStart, I2C_Delay_eq, DELAY_TIME, setScl, setSda]

theorem I2CStop_eq (s : Pins) :
    I2CStop s =
      { scl := true, sda := true, env := s.env, reads := s.reads, nops := s.nops + 180,
        log := s.log ++ [Pin.sda false, Pin.scl true, Pin.delay 5, Pin.sda true,
                         Pin.delay 5] } := by
  simp [I2CStop, I2C_Delay_eq, DELAY_TIME, setScl, setSda]

theorem I2CWaitAck_eq (s : Pins) :
    I2CWaitAck s =
      ((if s.env s.reads then 1 else 0),
       { scl := false, sda := s.sda, env := s.env, reads := s.reads + 1,
         nops := s.nops + 180,
         log := s.log ++ [Pin.scl true, Pin.delay 5, Pin.rd (s.env s.reads),
                          Pin.scl false, Pin.delay 5] }) := by
  simp [I2CWaitAck, I2C_Delay_eq, DELAY_TIME, setScl, getSda]

theorem I2CSendAck_eq (a : Nat) (s : Pins) :
    I2CSendAck a s =
      { scl := false, sda := true, env := s.env, reads := s.reads, nops := s.nops + 270,
        log := s.log ++ [Pin.scl false, Pin.sda (decide (a ≠ 0)), Pin.delay 5, Pin.scl true,
                         Pin.delay 5, Pin.scl false, Pin.sda true, Pin.delay 5] } := by
  simp [I2CSendAck, I2C_Delay_eq, DELAY_TIME, setScl, setSda]

/-! ## Segments: what each function does to the timing discipline -/

theorem timingOk_start (s : Pins) :
    (seg Op.start s (I2CStart s)).timingOk = (!s.scl || s.sda) := by
  have h : emitted s (I2CStart s) = _ := emitted_append s _ _ (by rw [I2CStart_eq])
  simp only [seg, Seg.timingOk, h]
  cases s.scl <;> cases s.sda <;> simp [dataChangesClockHigh]

theorem timingOk_stop (s : Pins) :
    (seg Op.stop s (I2CStop s)).timingOk = (!s.scl || !s.sda) := by
  have h : emitted s (I2CStop s) = _ := emitted_append s _ _ (by rw [I2CStop_eq])
  simp only [seg, Seg.timingOk, h]
  cases s.scl <;> cases s.sda <;> simp [dataChangesClockHigh]

theorem timingOk_send (b : Nat) (s : Pins) :
    (seg (Op.send b) s (I2CSendByte b s)).timingOk = true := by
  have h : emitted s (I2CSendByte b s) = _ := emitted_append s _ _ (by rw [I2CSendByte_eq])
  simp only [seg, Seg.timingOk, h]
  simp [List.range, List.range.loop, List.flatMap, dataChangesClockHigh]

theorem timingOk_receive (da0 : Nat) (s : Pins) :
    (seg Op.receive s (I2CReceiveByte da0 s).2).timingOk = true := by
  have h : emitted s (I2CReceiveByte da0 s).2 = _ :=
    emitted_append s _ _ (by rw [I2CReceiveByte_eq])
  simp only [seg, Seg.timingOk, h]
  simp [List.range, List.range.loop, List.flatMap, dataChangesClockHigh]

theorem timingOk_waitAck (s : Pins) :
    (seg Op.waitAck s (I2CWaitAck s).2).timingOk = true := by
  have h : emitted s (I2CWaitAck s).2 = _ := emitted_append s _ _ (by rw [I2CWaitAck_eq])
  simp only [seg, Seg.timingOk, h]
  simp [dataChangesClockHigh]

theorem timingOk_sendAck (a : Nat) (s : Pins) :
    (seg (Op.sendAck a) s (I2CSendAck a s)).timingOk = true := by
  have h : emitted s (I2CSendAck a s) = _ := emitted_append s _ _ (by rw [I2CSendAck_eq])
  simp only [seg, Seg.timingOk, h]
  simp [dataChangesClockHigh]

theorem timingOk_delay (n : Nat) (s : Pins) :
    (seg (Op.delay n) s (I2C_Delay n s)).timingOk = true := by
  have h : emitted s (I2C_Delay n s) = _ := emitted_append s _ _ (by rw [I2C_Delay_eq])
  simp only [seg, Seg.timingOk, h]
  simp [dataChangesClockHigh]

theorem receiveReleased_receive (da0 : Nat) (s : Pins) :
    (seg Op.receive s (I2CReceiveByte da0 s).2).receiveReleased = s.sda := by
  have h : emitted s (I2CReceiveByte da0 s).2 = _ :=
    emitted_append s _ _ (by rw [I2CReceiveByte_eq])
  simp only [seg, Seg.receiveReleased, h]
  cases s.sda <;>
    simp [List.range, List.range.loop, List.flatMap, dataAtSamples, List.replicate]

theorem dataAtSamples_waitAck (s : Pins) :
    dataAtSamples s.sda (emitted s (I2CWaitAck s).2) = [s.sda] := by
  have h : emitted s (I2CWaitAck s).2 = _ := emitted_append s _ _ (by rw [I2CWaitAck_eq])
  rw [h]
  simp [dataAtSamples]


/-! ## Two buses stepping together -/

theorem EEPROM_Write_loop_rel {σ τ : Type} {B : I2CBus σ} {C : I2CBus τ} {R : σ → τ → Prop}
    (h : BusRel B C R) (n : Nat) :
    ∀ (mem : List Nat) (p : Nat) (s : σ) (t : τ), R s t →
      R (EEPROM_Write_loop B n mem p s).2 (EEPROM_Write_loop C n mem p t).2 := by
  obtain ⟨hd, _, _, hs, _, hw, _⟩ := h
  induction n with
  | zero => intro mem p s t hR; exact hR
  | succ n ih =>
    intro mem p s t hR
    rw [EEPROM_Write_loop, EEPROM_Write_loop]
    exact ih mem (p + 1) _ _ (hd _ _ _ (hw _ _ (hs _ _ _ hR)))

theorem EEPROM_Read_loop_rel {σ τ : Type} {B : I2CBus σ} {C : I2CBus τ} {R : σ → τ → Prop}
    (h : BusRel B C R) (n : Nat) :
    ∀ (mem1 mem2 : List Nat) (p1 p2 : Nat) (s : σ) (t : τ), R s t →
      R (EEPROM_Read_loop B n mem1 p1 s).2 (EEPROM_Read_loop C n mem2 p2 t).2 := by
  obtain ⟨_, _, _, _, hr, _, ha⟩ := h
  induction n with
  | zero => intro mem1 mem2 p1 p2 s t hR; exact hR
  | succ n ih =>
    intro mem1 mem2 p1 p2 s t hR
    rw [EEPROM_Read_loop, EEPROM_Read_loop]
    apply ih
    by_cases hn : n = 0
    · simp only [hn, ne_eq, not_true_eq_false, if_false]
      exact ha _ _ _ (hr _ _ hR)
    · simp only [hn, ne_eq, not_false_eq_true, if_true]
      exact ha _ _ _ (hr _ _ hR)

theorem Call_run_rel {σ τ : Type} {B : I2CBus σ} {C : I2CBus τ} {R : σ → τ → Prop}
    (h : BusRel B C R) (c : Call) (s : σ) (t : τ) (hR : R s t) :
    R (c.run B s) (c.run C t) := by
  have h0 := h
  obtain ⟨hd, hst, hsp, hs, hr, hw, ha⟩ := h
  cases c with
  | adRead addr =>
    simp only [Call.run, Ad_Read]
    exact hsp _ _ (ha _ _ _ (hr _ _ (hw _ _ (hs _ _ _ (hst _ _ (hw _ _ (hs _ _ _
      (hw _ _ (hs _ _ _ (hst _ _ hR))))))))))
  | daWrite dat =>
    simp only [Call.run, Da_Write]
    exact hw _ _ (hs _ _ _ (hw _ _ (hs _ _ _ (hw _ _ (hs _ _ _ (hst _ _ hR))))))
  | eepromWrite str addr num =>
    simp only [Call.run, EEPROM_Write]
    have hl := EEPROM_Write_loop_rel h0 num str 0 _ _
      (hw _ _ (hs addr _ _ (hw _ _ (hs 0xa0 _ _ (hst _ _ hR)))))
    exact hd _ _ _ (hd _ _ _ (hd _ _ _ (hd _ _ _ (hd _ _ _ (hd _ _ _ (hd _ _ _ (hd _ _ _
      (hd _ _ _ (hd _ _ _ (hsp _ _ hl))))))))))
  | eepromRead str addr num =>
    simp only [Call.run, EEPROM_Read]
    exact hsp _ _ (EEPROM_Read_loop_rel h0 num str str 0 0 _ _
      (hw _ _ (hs 0xa1 _ _ (hst _ _ (hw _ _ (hs addr _ _ (hw _ _ (hs 0xa0 _ _ (hst _ _ hR)))))))))

theorem runCalls_rel {σ τ : Type} {B : I2CBus σ} {C : I2CBus τ} {R : σ → τ → Prop}
    (h : BusRel B C R) (cs : List Call) :
    ∀ (s : σ) (t : τ), R s t → R (runCalls B cs s) (runCalls C cs t) := by
  induction cs with
  | nil => intro s t hR; exact hR
  | cons c cs ih =>
    intro s t hR
    simp only [runCalls, List.foldl_cons]
    exact ih _ _ (Call_run_rel h c s t hR)


/-! ## The segmented bus: lemmas -/

theorem segmented_I2C_Delay (da0 n : Nat) (st : Pins × List Seg) :
    (segmented da0).I2C_Delay n st
      = (I2C_Delay n st.1, st.2 ++ [seg (Op.delay n) st.1 (I2C_Delay n st.1)]) := rfl

theorem segmented_I2CStart (da0 : Nat) (st : Pins × List Seg) :
    (segmented da0).I2CStart st
      = (I2CStart st.1, st.2 ++ [seg Op.start st.1 (I2CStart st.1)]) := rfl

theorem segmented_I2CStop (da0 : Nat) (st : Pins × List Seg) :
    (segmented da0).I2CStop st
      = (I2CStop st.1, st.2 ++ [seg Op.stop st.1 (I2CStop st.1)]) := rfl

theorem segmented_I2CSendByte (da0 b : Nat) (st : Pins × List Seg) :
    (segmented da0).I2CSendByte b st
      = (I2CSendByte b st.1, st.2 ++ [seg (Op.send b) st.1 (I2CSendByte b st.1)]) := rfl

theorem segmented_I2CReceiveByte (da0 : Nat) (st : Pins × List Seg) :
    (segmented da0).I2CReceiveByte st
      = ((I2CReceiveByte da0 st.1).1,
         ((I2CReceiveByte da0 st.1).2,
          st.2 ++ [seg Op.receive st.1 (I2CReceiveByte da0 st.1).2])) := rfl

theorem segmented_I2CWaitAck (da0 : Nat) (st : Pins × List Seg) :
    (segmented da0).I2CWaitAck st
      = ((I2CWaitAck st.1).1,
         ((I2CWaitAck st.1).2, st.2 ++ [seg Op.waitAck st.1 (I2CWaitAck st.1).2])) := rfl

theorem segmented_I2CSendAck (da0 a : Nat) (st : Pins × List Seg) :
    (segmented da0).I2CSendAck a st
      = (I2CSendAck a st.1, st.2 ++ [seg (Op.sendAck a) st.1 (I2CSendAck a st.1)]) := rfl

/-! ### Timing discipline, call by call -/

theorem low_of_start (da0 : Nat) (st : Pins × List Seg) (h : TimingRest st) :
    TimingLow ((segmented da0).I2CStart st) := by
  obtain ⟨h1, h2⟩ := h
  refine ⟨?_, ?_⟩
  · rw [segmented_I2CStart]
    simp only [List.all_append, h1, List.all_cons, List.all_nil, timingOk_start, Bool.and_true,
      Bool.true_and]
    revert h2
    cases st.1.scl <;> cases st.1.sda <;> simp
  · rw [segmented_I2CStart, I2CStart_eq]

theorem low_send (da0 b : Nat) (st : Pins × List Seg) (h : TimingLow st) :
    TimingLow ((segmented da0).I2CSendByte b st) := by
  refine ⟨?_, ?_⟩
  · rw [segmented_I2CSendByte]
    simp [List.all_append, h.1, timingOk_send]
  · rw [segmented_I2CSendByte, I2CSendByte_eq]

theorem low_waitAck (da0 : Nat) (st : Pins × List Seg) (h : TimingLow st) :
    TimingLow ((segmented da0).I2CWaitAck st).2 := by
  refine ⟨?_, ?_⟩
  · rw [segmented_I2CWaitAck]
    simp [List.all_append, h.1, timingOk_waitAck]
  · rw [segmented_I2CWaitAck, I2CWaitAck_eq]

theorem low_receive (da0 : Nat) (st : Pins × List Seg) (h : TimingLow st) :
    TimingLow ((segmented da0).I2CReceiveByte st).2 := by
  refine ⟨?_, ?_⟩
  · rw [segmented_I2CReceiveByte]
    simp [List.all_append, h.1, timingOk_receive]
  · rw [segmented_I2CReceiveByte, I2CReceiveByte_eq]

theorem low_sendAck (da0 a : Nat) (st : Pins × List Seg) (h : TimingLow st) :
    TimingLow ((segmented da0).I2CSendAck a st) := by
  refine ⟨?_, ?_⟩
  · rw [segmented_I2CSendAck]
    simp [List.all_append, h.1, timingOk_sendAck]
  · rw [segmented_I2CSendAck, I2CSendAck_eq]

theorem low_delay (da0 n : Nat) (st : Pins × List Seg) (h : TimingLow st) :
    TimingLow ((segmented da0).I2C_Delay n st) := by
  refine ⟨?_, ?_⟩
  · rw [segmented_I2C_Delay]
    simp [List.all_append, h.1, timingOk_delay]
  · rw [segmented_I2C_Delay, I2C_Delay_eq]
    exact h.2

theorem rest_of_stop (da0 : Nat) (st : Pins × List Seg) (h : TimingLow st) :
    TimingRest ((segmented da0).I2CStop st) := by
  refine ⟨?_, ?_⟩
  · rw [segmented_I2CStop]
    simp [List.all_append, h.1, timingOk_stop, h.2]
  · intro _
    rw [segmented_I2CStop, I2CStop_eq]

theorem rest_delay (da0 n : Nat) (st : Pins × List Seg) (h : TimingRest st) :
    TimingRest ((segmented da0).I2C_Delay n st) := by
  refine ⟨?_, ?_⟩
  · rw [segmented_I2C_Delay]
    simp [List.all_append, h.1, timingOk_delay]
  · rw [segmented_I2C_Delay, I2C_Delay_eq]
    exact h.2

theorem rest_of_low (st : Pins × List Seg) (h : TimingLow st) : TimingRest st :=
  ⟨h.1, fun hc => by rw [h.2] at hc; exact absurd hc (by decide)⟩

theorem low_EEPROM_Write_loop (da0 n : Nat) :
    ∀ (mem : List Nat) (p : Nat) (st : Pins × List Seg), TimingLow st →
      TimingLow (EEPROM_Write_loop (segmented da0) n mem p st).2 := by
  induction n with
  | zero => intro mem p st h; exact h
  | succ n ih =>
    intro mem p st h
    rw [EEPROM_Write_loop]
    exact ih mem (p + 1) _ (low_delay _ _ _ (low_waitAck _ _ (low_send _ _ _ h)))

theorem low_EEPROM_Read_loop (da0 n : Nat) :
    ∀ (mem : List Nat) (p : Nat) (st : Pins × List Seg), TimingLow st →
      TimingLow (EEPROM_Read_loop (segmented da0) n mem p st).2 := by
  induction n with
  | zero => intro mem p st h; exact h
  | succ n ih =>
    intro mem p st h
    rw [EEPROM_Read_loop]
    apply ih
    split
    · exact low_sendAck _ _ _ (low_receive _ _ h)
    · exact low_sendAck _ _ _ (low_receive _ _ h)

theorem rest_Call_run (da0 : Nat) (c : Call) (st : Pins × List Seg) (h : TimingRest st) :
    TimingRest (c.run (segmented da0) st) := by
  cases c with
  | adRead addr =>
    simp only [Call.run, Ad_Read]
    exact rest_of_stop _ _ (low_sendAck _ _ _ (low_receive _ _ (low_waitAck _ _
      (low_send _ _ _ (low_of_start _ _ (rest_of_low _ (low_waitAck _ _ (low_send _ _ _
        (low_waitAck _ _ (low_send _ _ _ (low_of_start _ _ h)))))))))))
  | daWrite dat =>
    simp only [Call.run, Da_Write]
    exact rest_of_low _ (low_waitAck _ _ (low_send _ _ _ (low_waitAck _ _ (low_send _ _ _
      (low_waitAck _ _ (low_send _ _ _ (low_of_start _ _ h)))))))
  | eepromWrite str addr num =>
    simp only [Call.run, EEPROM_Write]
    have hl := low_EEPROM_Write_loop da0 num str 0 _
      (low_waitAck da0 _ (low_send da0 addr _ (low_waitAck da0 _ (low_send da0 0xa0 _
        (low_of_start da0 st h)))))
    exact rest_delay _ _ _ (rest_delay _ _ _ (rest_delay _ _ _ (rest_delay _ _ _
      (rest_delay _ _ _ (rest_delay _ _ _ (rest_delay _ _ _ (rest_delay _ _ _
        (rest_delay _ _ _ (rest_delay _ _ _ (rest_of_stop _ _ hl))))))))))
  | eepromRead str addr num =>
    simp only [Call.run, EEPROM_Read]
    exact rest_of_stop _ _ (low_EEPROM_Read_loop da0 num str 0 _
      (low_waitAck _ _ (low_send _ 0xa1 _ (low_of_start _ _ (rest_of_low _
        (low_waitAck _ _ (low_send _ addr _ (low_waitAck _ _ (low_send _ 0xa0 _
          (low_of_start _ _ h))))))))))

theorem rest_runCalls (da0 : Nat) (cs : List Call) :
    ∀ st : Pins × List Seg, TimingRest st → TimingRest (runCalls (segmented da0) cs st) := by
  induction cs with
  | nil => intro st h; exact h
  | cons c cs ih =>
    intro st h
    simp only [runCalls, List.foldl_cons]
    exact ih _ (rest_Call_run da0 c st h)


/-! ### Released data line while receiving, call by call -/

theorem released_start (da0 : Nat) (st : Pins × List Seg) (h : Released st) :
    Released ((segmented da0).I2CStart st) := by
  unfold Released at h ⊢
  rw [segmented_I2CStart]
  simp [List.all_append, h, seg, Seg.receiveReleased]

theorem released_stop (da0 : Nat) (st : Pins × List Seg) (h : Released st) :
    Released ((segmented da0).I2CStop st) := by
  unfold Released at h ⊢
  rw [segmented_I2CStop]
  simp [List.all_append, h, seg, Seg.receiveReleased]

theorem released_send (da0 b : Nat) (st : Pins × List Seg) (h : Released st) :
    Released ((segmented da0).I2CSendByte b st)
      ∧ ((segmented da0).I2CSendByte b st).1.sda = b.testBit 0 := by
  unfold Released at h ⊢
  rw [segmented_I2CSendByte]
  refine ⟨by simp [List.all_append, h, seg, Seg.receiveReleased], ?_⟩
  rw [I2CSendByte_eq]

theorem released_waitAck (da0 : Nat) (st : Pins × List Seg) (h : Released st) :
    Released ((segmented da0).I2CWaitAck st).2
      ∧ ((segmented da0).I2CWaitAck st).2.1.sda = st.1.sda := by
  unfold Released at h ⊢
  rw [segmented_I2CWaitAck]
  refine ⟨by simp [List.all_append, h, seg, Seg.receiveReleased], ?_⟩
  rw [I2CWaitAck_eq]

theorem high_receive (da0 : Nat) (st : Pins × List Seg) (h : ReleasedHigh st) :
    ReleasedHigh ((segmented da0).I2CReceiveByte st).2 := by
  obtain ⟨h1, h2⟩ := h
  unfold ReleasedHigh
  rw [segmented_I2CReceiveByte]
  refine ⟨by simp [List.all_append, h1, receiveReleased_receive, h2], ?_⟩
  rw [I2CReceiveByte_eq]
  exact h2

theorem high_sendAck (da0 a : Nat) (st : Pins × List Seg) (h : Released st) :
    ReleasedHigh ((segmented da0).I2CSendAck a st) := by
  unfold Released at h
  unfold ReleasedHigh
  rw [segmented_I2CSendAck]
  refine ⟨by simp [List.all_append, h, seg, Seg.receiveReleased], ?_⟩
  rw [I2CSendAck_eq]

theorem high_EEPROM_Read_loop (da0 n : Nat) :
    ∀ (mem : List Nat) (p : Nat) (st : Pins × List Seg), ReleasedHigh st →
      ReleasedHigh (EEPROM_Read_loop (segmented da0) n mem p st).2 := by
  induction n with
  | zero => intro mem p st h; exact h
  | succ n ih =>
    intro mem p st h
    rw [EEPROM_Read_loop]
    apply ih
    split
    · exact high_sendAck _ _ _ (high_receive _ _ h).1
    · exact high_sendAck _ _ _ (high_receive _ _ h).1

theorem released_Ad_Read (da0 addr : Nat) (st : Pins × List Seg) (h : Released st) :
    Released (Call.run (segmented da0) (Call.adRead addr) st) := by
  simp only [Call.run, Ad_Read]
  have h1 := (released_waitAck da0 _ (released_send da0 addr _
    (released_waitAck da0 _ (released_send da0 0x90 _ (released_start da0 st h)).1).1).1).1
  have h2 := released_send da0 0x91 _ (released_start da0 _ h1)
  have h3 := released_waitAck da0 _ h2.1
  have h4 : ReleasedHigh _ := ⟨h3.1, by rw [h3.2, h2.2]; decide⟩
  exact released_stop _ _ (high_sendAck _ _ _ (high_receive _ _ h4).1).1

theorem released_EEPROM_Read (da0 : Nat) (str : List Nat) (addr num : Nat)
    (st : Pins × List Seg) (h : Released st) :
    Released (Call.run (segmented da0) (Call.eepromRead str addr num) st) := by
  simp only [Call.run, EEPROM_Read]
  have h1 := (released_waitAck da0 _ (released_send da0 addr _
    (released_waitAck da0 _ (released_send da0 0xa0 _ (released_start da0 st h)).1).1).1).1
  have h2 := released_send da0 0xa1 _ (released_start da0 _ h1)
  have h3 := released_waitAck da0 _ h2.1
  have h4 : ReleasedHigh _ := ⟨h3.1, by rw [h3.2, h2.2]; decide⟩
  exact released_stop _ _ (high_EEPROM_Read_loop da0 num str 0 _ h4).1

/-! ### The segments and the recorded operations are the same calls -/

theorem segmented_recording_rel (da0 : Nat) :
    BusRel (segmented da0) (recording (pinBus da0))
      (fun st rt => st.1 = rt.1 ∧ st.2.map Seg.op = rt.2.ops) := by
  refine ⟨?_, ?_, ?_, ?_, ?_, ?_, ?_⟩
  · rintro n ⟨s, l⟩ ⟨t, r⟩ ⟨h1, h2⟩
    simp only at h1 h2
    subst h1
    exact ⟨rfl, by simp [segmented_I2C_Delay, h2, seg]⟩
  · rintro ⟨s, l⟩ ⟨t, r⟩ ⟨h1, h2⟩
    simp only at h1 h2
    subst h1
    exact ⟨rfl, by simp [segmented_I2CStart, h2, seg]⟩
  · rintro ⟨s, l⟩ ⟨t, r⟩ ⟨h1, h2⟩
    simp only at h1 h2
    subst h1
    exact ⟨rfl, by simp [segmented_I2CStop, h2, seg]⟩
  · rintro b ⟨s, l⟩ ⟨t, r⟩ ⟨h1, h2⟩
    simp only at h1 h2
    subst h1
    exact ⟨rfl, by simp [segmented_I2CSendByte, h2, seg]⟩
  · rintro ⟨s, l⟩ ⟨t, r⟩ ⟨h1, h2⟩
    simp only at h1 h2
    subst h1
    exact ⟨rfl, by simp [segmented_I2CReceiveByte, h2, seg]⟩
  · rintro ⟨s, l⟩ ⟨t, r⟩ ⟨h1, h2⟩
    simp only at h1 h2
    subst h1
    exact ⟨rfl, by simp [segmented_I2CWaitAck, h2, seg]⟩
  · rintro a ⟨s, l⟩ ⟨t, r⟩ ⟨h1, h2⟩
    simp only at h1 h2
    subst h1
    exact ⟨rfl, by simp [segmented_I2CSendAck, h2, seg]⟩

theorem segmented_ops (da0 : Nat) (cs : List Call) (s : Pins) :
    (runCalls (segmented da0) cs (s, [])).2.map Seg.op
      = (runCalls (recording (pinBus da0)) cs (s, Trace.empty)).2.ops :=
  (runCalls_rel (segmented_recording_rel da0) cs (s, []) (s, Trace.empty) ⟨rfl, rfl⟩).2


/-! ### The master's actions do not depend on what is sampled -/

theorem masterActions_append (l r : List Pin) :
    masterActions (l ++ r) = masterActions l ++ masterActions r := by
  simp [masterActions, List.filter_append]

theorem pinBus_sameMaster (da0 da1 : Nat) :
    BusRel (pinBus da0) (pinBus da1) SameMaster := by
  refine ⟨?_, ?_, ?_, ?_, ?_, ?_, ?_⟩
  · rintro n s t ⟨h1, h2, h3, h4⟩
    show SameMaster (I2C_Delay n s) (I2C_Delay n t)
    rw [I2C_Delay_eq, I2C_Delay_eq]
    exact ⟨h1, h2, by simp [h3], by simp [masterActions_append, h4]⟩
  · rintro s t ⟨h1, h2, h3, h4⟩
    show SameMaster (I2CStart s) (I2CStart t)
    rw [I2CStart_eq, I2CStart_eq]
    exact ⟨rfl, rfl, by simp [h3], by simp [masterActions_append, h4]⟩
  · rintro s t ⟨h1, h2, h3, h4⟩
    show SameMaster (I2CStop s) (I2CStop t)
    rw [I2CStop_eq, I2CStop_eq]
    exact ⟨rfl, rfl, by simp [h3], by simp [masterActions_append, h4]⟩
  · rintro b s t ⟨h1, h2, h3, h4⟩
    show SameMaster (I2CSendByte b s) (I2CSendByte b t)
    rw [I2CSendByte_eq, I2CSendByte_eq]
    exact ⟨rfl, rfl, by simp [h3], by simp [masterActions_append, h4]⟩
  · rintro s t ⟨h1, h2, h3, h4⟩
    show SameMaster (I2CReceiveByte da0 s).2 (I2CReceiveByte da1 t).2
    rw [I2CReceiveByte_eq, I2CReceiveByte_eq]
    refine ⟨rfl, h2, by simp [h3], ?_⟩
    simp [masterActions_append, h4]
    simp [masterActions, List.range, List.range.loop, List.flatMap]
  · rintro s t ⟨h1, h2, h3, h4⟩
    show SameMaster (I2CWaitAck s).2 (I2CWaitAck t).2
    rw [I2CWaitAck_eq, I2CWaitAck_eq]
    refine ⟨rfl, h2, by simp [h3], ?_⟩
    simp [masterActions_append, h4]
    simp [masterActions]
  · rintro a s t ⟨h1, h2, h3, h4⟩
    show SameMaster (I2CSendAck a s) (I2CSendAck a t)
    rw [I2CSendAck_eq, I2CSendAck_eq]
    exact ⟨rfl, rfl, by simp [h3], by simp [masterActions_append, h4]⟩

theorem recording_same_ops {σ τ : Type} (B : I2CBus σ) (C : I2CBus τ) :
    BusRel (recording B) (recording C) (fun x y => x.2.ops = y.2.ops) := by
  refine ⟨?_, ?_, ?_, ?_, ?_, ?_, ?_⟩
  · intro n s t h; simp [h]
  · intro s t h; simp [h]
  · intro s t h; simp [h]
  · intro b s t h; simp [h]
  · intro s t h; simp [h]
  · intro s t h; simp [h]
  · intro a s t h; simp [h]

/-! ### Acknowledgement phases -/

theorem ackClosed_nil : AckClosed [] := fun _ => rfl

theorem ackClosed_append {l r : List Op} (hl : AckClosed l) (hr : AckClosed r) :
    AckClosed (l ++ r) := by
  intro tail
  rw [List.append_assoc, hl, hr]

theorem ackClosed_start : AckClosed [Op.start] := fun _ => by simp [ackFollows]

theorem ackClosed_stop : AckClosed [Op.stop] := fun _ => by simp [ackFollows]

theorem ackClosed_delay (n : Nat) : AckClosed [Op.delay n] := fun _ => by simp [ackFollows]

theorem ackClosed_send (b : Nat) : AckClosed [Op.send b, Op.waitAck] :=
  fun _ => by simp [ackFollows]

theorem ackClosed_receive (a : Nat) : AckClosed [Op.receive, Op.sendAck a] :=
  fun _ => by simp [ackFollows]

theorem ackClosed_EEPROM_Write_loop {σ : Type} (B : I2CBus σ) (n : Nat) :
    ∀ (mem : List Nat) (p : Nat) (st : σ × Trace), AckClosed st.2.ops →
      AckClosed (EEPROM_Write_loop (recording B) n mem p st).2.2.ops := by
  induction n with
  | zero => intro mem p st h; exact h
  | succ n ih =>
    intro mem p st h
    rw [EEPROM_Write_loop]
    apply ih
    simp only [recording_I2C_Delay, recording_I2CWaitAck, recording_I2CSendByte,
      Trace_call_ops, List.append_assoc]
    refine ackClosed_append h ?_
    intro tail
    simp [ackFollows]

theorem ackClosed_EEPROM_Read_loop {σ : Type} (B : I2CBus σ) (n : Nat) :
    ∀ (mem : List Nat) (p : Nat) (st : σ × Trace), AckClosed st.2.ops →
      AckClosed (EEPROM_Read_loop (recording B) n mem p st).2.2.ops := by
  induction n with
  | zero => intro mem p st h; exact h
  | succ n ih =>
    intro mem p st h
    rw [EEPROM_Read_loop, recording_sendAck_ite]
    apply ih
    simp only [recording_I2CReceiveByte, Trace_call_ops, List.append_assoc]
    refine ackClosed_append h ?_
    intro tail
    simp [ackFollows]

theorem ackClosed_Call_run {σ : Type} (B : I2CBus σ) (c : Call) (st : σ × Trace)
    (h : AckClosed st.2.ops) : AckClosed (c.run (recording B) st).2.ops := by
  cases c with
  | adRead addr =>
    simp only [Call.run, Ad_Read, recording_I2CStart, recording_I2CStop, recording_I2CSendByte,
      recording_I2CWaitAck, recording_I2CReceiveByte, recording_I2CSendAck, Trace_call_ops,
      List.append_assoc]
    refine ackClosed_append h ?_
    intro tail
    simp [ackFollows]
  | daWrite dat =>
    simp only [Call.run, Da_Write, recording_I2CStart, recording_I2CSendByte,
      recording_I2CWaitAck, Trace_call_ops, List.append_assoc]
    refine ackClosed_append h ?_
    intro tail
    simp [ackFollows]
  | eepromWrite str addr num =>
    simp only [Call.run, EEPROM_Write, recording_I2CStop, recording_I2C_Delay, Trace_call_ops,
      List.append_assoc]
    refine ackClosed_append (ackClosed_EEPROM_Write_loop B num str 0 _ ?_) ?_
    · simp only [recording_I2CStart, recording_I2CSendByte, recording_I2CWaitAck,
        Trace_call_ops, List.append_assoc]
      refine ackClosed_append h ?_
      intro tail
      simp [ackFollows]
    · intro tail
      simp [ackFollows]
  | eepromRead str addr num =>
    simp only [Call.run, EEPROM_Read, recording_I2CStop, Trace_call_ops]
    refine ackClosed_append (ackClosed_EEPROM_Read_loop B num str 0 _ ?_) ackClosed_stop
    simp only [recording_I2CStart, recording_I2CSendByte, recording_I2CWaitAck,
      Trace_call_ops, List.append_assoc]
    refine ackClosed_append h ?_
    intro tail
    simp [ackFollows]

/-! ## The wires to the emulated EEPROM: lemmas -/

theorem replay_append (w : Wires) (l r : List Pin) :
    w.replay (l ++ r) = (w.replay l).replay r := by
  simp [Wires.replay, List.foldl_append]

theorem replay_ok_mono (evs : List Pin) :
    ∀ w : Wires, (w.replay evs).ok = true → w.ok = true := by
  induction evs with
  | nil => intro w h; exact h
  | cons e evs ih =>
    intro w h
    have h1 := ih (w.step e) h
    cases e with
    | scl v =>
      simp only [Wires.step] at h1
      split_ifs at h1 <;> exact h1
    | sda v =>
      simp only [Wires.step] at h1
      split_ifs at h1 <;> exact h1
    | rd v =>
      simp only [Wires.step, Bool.and_eq_true] at h1
      exact h1.1
    | delay n => exact h1

theorem bits_value (b : Nat) :
    2 * (2 * (2 * (2 * (2 * (2 * (2 * (b.testBit 7).toNat + (b.testBit 6).toNat)
      + (b.testBit 5).toNat) + (b.testBit 4).toNat) + (b.testBit 3).toNat)
      + (b.testBit 2).toNat) + (b.testBit 1).toNat) + (b.testBit 0).toNat = b % 256 := by
  simp only [Nat.toNat_testBit, Nat.reducePow]
  have e7 : b / 128 % 2 = b % 256 / 128 := by omega
  have e6 : b / 64 % 2 = b % 128 / 64 := by omega
  have e5 : b / 32 % 2 = b % 64 / 32 := by omega
  have e4 : b / 16 % 2 = b % 32 / 16 := by omega
  have e3 : b / 8 % 2 = b % 16 / 8 := by omega
  have e2 : b / 4 % 2 = b % 8 / 4 := by omega
  have e1 : b / 2 % 2 = b % 4 / 2 := by omega
  have e0 : b / 1 % 2 = b % 2 := by omega
  rw [e7, e6, e5, e4, e3, e2, e1, e0]
  have s1 : b % 4 = 2 * (b % 4 / 2) + b % 2 := by omega
  have s2 : b % 8 = 4 * (b % 8 / 4) + b % 4 := by omega
  have s3 : b % 16 = 8 * (b % 16 / 8) + b % 8 := by omega
  have s4 : b % 32 = 16 * (b % 32 / 16) + b % 16 := by omega
  have s5 : b % 64 = 32 * (b % 64 / 32) + b % 32 := by omega
  have s6 : b % 128 = 64 * (b % 128 / 64) + b % 64 := by omega
  have s7 : b % 256 = 128 * (b % 256 / 128) + b % 128 := by omega
  generalize b % 256 / 128 = x7 at *
  generalize b % 128 / 64 = x6 at *
  generalize b % 64 / 32 = x5 at *
  generalize b % 32 / 16 = x4 at *
  generalize b % 16 / 8 = x3 at *
  generalize b % 8 / 4 = x2 at *
  generalize b % 4 / 2 = x1 at *
  omega

theorem onByte_phase (k : ByteKind) (b : Nat) (store : Nat → Nat) (ptr : Nat)
    (p q : SlavePhase) :
    Slave.onByte k b { store := store, ptr := ptr, phase := p }
      = Slave.onByte k b { store := store, ptr := ptr, phase := q } := by
  cases k <;> simp only [Slave.onByte]

theorem wires_start_idle (store : Nat → Nat) (ptr : Nat) (c s ok : Bool) :
    Wires.replay { slave := { store := store, ptr := ptr, phase := SlavePhase.idle },
                   scl := c, sda := s, ok := ok }
        [Pin.sda true, Pin.scl true, Pin.delay 5, Pin.sda false, Pin.delay 5, Pin.scl false]
      = { slave := { store := store, ptr := ptr,
                     phase := SlavePhase.recv ByteKind.device 0 0 },
          scl := false, sda := false, ok := ok } := by
  cases c <;> cases s <;>
    simp [Wires.replay, Wires.step, Wires.line, Slave.out, Slave.onRising, Slave.onFalling]

theorem wires_start_recv (store : Nat → Nat) (ptr : Nat) (k : ByteKind) (s ok : Bool) :
    Wires.replay { slave := { store := store, ptr := ptr, phase := SlavePhase.recv k 0 0 },
                   scl := false, sda := s, ok := ok }
        [Pin.sda true, Pin.scl true, Pin.delay 5, Pin.sda false, Pin.delay 5, Pin.scl false]
      = { slave := { store := store, ptr := ptr,
                     phase := SlavePhase.recv ByteKind.device 0 0 },
          scl := false, sda := false, ok := ok } := by
  simp [Wires.replay, Wires.step, Wires.line, Slave.out, Slave.onRising, Slave.onFalling]

theorem wires_send (store : Nat → Nat) (ptr : Nat) (k : ByteKind) (b : Nat) (s ok : Bool) :
    Wires.replay { slave := { store := store, ptr := ptr, phase := SlavePhase.recv k 0 0 },
                   scl := false, sda := s, ok := ok }
        ((List.range 8).flatMap (fun j =>
            [Pin.scl false, Pin.delay 5, Pin.sda (b.testBit (7 - j)),
             Pin.delay 5, Pin.scl true, Pin.delay 5]) ++ [Pin.scl false])
      = { slave := Slave.onByte k (b % 256) { store := store, ptr := ptr,
                                              phase := SlavePhase.recv k 0 0 },
          scl := false, sda := b.testBit 0, ok := ok } := by
  simp only [List.range, List.range.loop, List.flatMap, List.map, List.flatten,
    List.append_assoc, List.cons_append, List.nil_append, Wires.replay, List.foldl]
  simp [Wires.step, Wires.line, Slave.out, Slave.onRising, Slave.onFalling]
  rw [← Nat.testBit_zero, bits_value]
  exact onByte_phase k _ store ptr _ _

theorem wires_waitAck (store : Nat → Nat) (ptr : Nat) (next : AfterAck) (v s ok : Bool) :
    Wires.replay { slave := { store := store, ptr := ptr, phase := SlavePhase.ack next },
                   scl := false, sda := s, ok := ok }
        [Pin.scl true, Pin.delay 5, Pin.rd v, Pin.scl false, Pin.delay 5]
      = { slave := { store := store, ptr := ptr,
                     phase := match next with
                       | AfterAck.take k => SlavePhase.recv k 0 0
                       | AfterAck.give => SlavePhase.send 0
                       | AfterAck.rest => SlavePhase.idle },
          scl := false, sda := s, ok := ok && !v } := by
  cases next <;> cases v <;>
    simp [Wires.replay, Wires.step, Wires.line, Slave.out, Slave.onRising, Slave.onFalling]

theorem wires_receive (store : Nat → Nat) (ptr : Nat) (v : Nat → Bool) (ok : Bool) :
    Wires.replay { slave := { store := store, ptr := ptr, phase := SlavePhase.send 0 },
                   scl := false, sda := true, ok := ok }
        ((List.range 8).flatMap (fun j =>
            [Pin.scl true, Pin.delay 5, Pin.rd (v j), Pin.scl false, Pin.delay 5]))
      = { slave := { store := store, ptr := ptr, phase := SlavePhase.mack },
          scl := false, sda := true,
          ok := ok && decide ((List.range 8).map v
                  = (List.range 8).map (fun j => (store ptr).testBit (7 - j))) } := by
  simp only [List.range, List.range.loop, List.flatMap, List.map, List.flatten,
    List.append_assoc, List.cons_append, List.nil_append, Wires.replay, List.foldl]
  simp [Wires.step, Wires.line, Slave.out, Slave.onRising, Slave.onFalling, Bool.and_assoc]

theorem wires_sendAck (store : Nat → Nat) (ptr a : Nat) (s ok : Bool) :
    Wires.replay { slave := { store := store, ptr := ptr, phase := SlavePhase.mack },
                   scl := false, sda := s, ok := ok }
        [Pin.scl false, Pin.sda (decide (a ≠ 0)), Pin.delay 5, Pin.scl true,
         Pin.delay 5, Pin.scl false, Pin.sda true, Pin.delay 5]
      = { slave := { store := store, ptr := (ptr + 1) % 256,
                     phase := if a ≠ 0 then SlavePhase.idle else SlavePhase.send 0 },
          scl := false, sda := true, ok := ok } := by
  by_cases h : a = 0 <;>
    simp [Wires.replay, Wires.step, Wires.line, Slave.out, Slave.onRising, Slave.onFalling, h]

theorem wires_stop_recv (store : Nat → Nat) (ptr : Nat) (k : ByteKind) (s ok : Bool) :
    Wires.replay { slave := { store := store, ptr := ptr, phase := SlavePhase.recv k 0 0 },
                   scl := false, sda := s, ok := ok }
        [Pin.sda false, Pin.scl true, Pin.delay 5, Pin.sda true, Pin.delay 5]
      = { slave := { store := store, ptr := ptr, phase := SlavePhase.idle },
          scl := true, sda := true, ok := ok } := by
  simp [Wires.replay, Wires.step, Wires.line, Slave.out, Slave.onRising, Slave.onFalling]

theorem wires_stop_idle (store : Nat → Nat) (ptr : Nat) (s ok : Bool) :
    Wires.replay { slave := { store := store, ptr := ptr, phase := SlavePhase.idle },
                   scl := false, sda := s, ok := ok }
        [Pin.sda false, Pin.scl true, Pin.delay 5, Pin.sda true, Pin.delay 5]
      = { slave := { store := store, ptr := ptr, phase := SlavePhase.idle },
          scl := true, sda := true, ok := ok } := by
  simp [Wires.replay, Wires.step, Wires.line, Slave.out, Slave.onRising, Slave.onFalling]

theorem wires_delay (w : Wires) (n : Nat) : w.replay [Pin.delay n] = w := rfl

/-! ### The driver on the wires, call by call -/

theorem wired_start_idle (da0 : Nat) (s : Pins) (store : Nat → Nat) (ptr : Nat)
    (c d ok : Bool) :
    (wired (pinBus da0)).I2CStart
        (s, { slave := { store := store, ptr := ptr, phase := SlavePhase.idle },
              scl := c, sda := d, ok := ok })
      = (I2CStart s,
         { slave := { store := store, ptr := ptr,
                      phase := SlavePhase.recv ByteKind.device 0 0 },
           scl := false, sda := false, ok := ok }) := by
  show (I2CStart s, Wires.replay _ (emitted s (I2CStart s))) = _
  rw [emitted_append s _ _ (by rw [I2CStart_eq]), wires_start_idle]

theorem wired_start_recv (da0 : Nat) (s : Pins) (store : Nat → Nat) (ptr : Nat)
    (k : ByteKind) (d ok : Bool) :
    (wired (pinBus da0)).I2CStart
        (s, { slave := { store := store, ptr := ptr, phase := SlavePhase.recv k 0 0 },
              scl := false, sda := d, ok := ok })
      = (I2CStart s,
         { slave := { store := store, ptr := ptr,
                      phase := SlavePhase.recv ByteKind.device 0 0 },
           scl := false, sda := false, ok := ok }) := by
  show (I2CStart s, Wires.replay _ (emitted s (I2CStart s))) = _
  rw [emitted_append s _ _ (by rw [I2CStart_eq]), wires_start_recv]

theorem wired_send (da0 b : Nat) (s : Pins) (store : Nat → Nat) (ptr : Nat)
    (k : ByteKind) (d ok : Bool) :
    (wired (pinBus da0)).I2CSendByte b
        (s, { slave := { store := store, ptr := ptr, phase := SlavePhase.recv k 0 0 },
              scl := false, sda := d, ok := ok })
      = (I2CSendByte b s,
         { slave := Slave.onByte k (b % 256) { store := store, ptr := ptr,
                                               phase := SlavePhase.recv k 0 0 },
           scl := false, sda := b.testBit 0, ok := ok }) := by
  show (I2CSendByte b s, Wires.replay _ (emitted s (I2CSendByte b s))) = _
  rw [emitted_append s _ _ (by rw [I2CSendByte_eq]), wires_send]

theorem wired_waitAck (da0 : Nat) (s : Pins) (store : Nat → Nat) (ptr : Nat)
    (next : AfterAck) (d ok : Bool) :
    ((wired (pinBus da0)).I2CWaitAck
        (s, { slave := { store := store, ptr := ptr, phase := SlavePhase.ack next },
              scl := false, sda := d, ok := ok })).2
      = ((I2CWaitAck s).2,
         { slave := { store := store, ptr := ptr,
                      phase := match next with
                        | AfterAck.take k => SlavePhase.recv k 0 0
                        | AfterAck.give => SlavePhase.send 0
                        | AfterAck.rest => SlavePhase.idle },
           scl := false, sda := d, ok := ok && !(s.env s.reads) }) := by
  show ((I2CWaitAck s).2, Wires.replay _ (emitted s (I2CWaitAck s).2)) = _
  rw [emitted_append s _ _ (by rw [I2CWaitAck_eq]), wires_waitAck]

theorem wired_receive (da0 : Nat) (s : Pins) (store : Nat → Nat) (ptr : Nat) (ok : Bool) :
    (wired (pinBus da0)).I2CReceiveByte
        (s, { slave := { store := store, ptr := ptr, phase := SlavePhase.send 0 },
              scl := false, sda := true, ok := ok })
      = ((I2CReceiveByte da0 s).1,
         ((I2CReceiveByte da0 s).2,
          { slave := { store := store, ptr := ptr, phase := SlavePhase.mack },
            scl := false, sda := true,
            ok := ok && decide ((List.range 8).map (fun j => s.env (s.reads + j))
                    = (List.range 8).map (fun j => (store ptr).testBit (7 - j))) })) := by
  show ((I2CReceiveByte da0 s).1, ((I2CReceiveByte da0 s).2,
    Wires.replay _ (emitted s (I2CReceiveByte da0 s).2))) = _
  rw [emitted_append s _ _ (by rw [I2CReceiveByte_eq]),
    wires_receive store ptr (fun j => s.env (s.reads + j)) ok]

theorem wired_sendAck (da0 a : Nat) (s : Pins) (store : Nat → Nat) (ptr : Nat) (d ok : Bool) :
    (wired (pinBus da0)).I2CSendAck a
        (s, { slave := { store := store, ptr := ptr, phase := SlavePhase.mack },
              scl := false, sda := d, ok := ok })
      = (I2CSendAck a s,
         { slave := { store := store, ptr := (ptr + 1) % 256,
                      phase := if a ≠ 0 then SlavePhase.idle else SlavePhase.send 0 },
           scl := false, sda := true, ok := ok }) := by
  show (I2CSendAck a s, Wires.replay _ (emitted s (I2CSendAck a s))) = _
  rw [emitted_append s _ _ (by rw [I2CSendAck_eq]), wires_sendAck]

theorem wired_stop_recv (da0 : Nat) (s : Pins) (store : Nat → Nat) (ptr : Nat)
    (k : ByteKind) (d ok : Bool) :
    (wired (pinBus da0)).I2CStop
        (s, { slave := { store := store, ptr := ptr, phase := SlavePhase.recv k 0 0 },
              scl := false, sda := d, ok := ok })
      = (I2CStop s,
         { slave := { store := store, ptr := ptr, phase := SlavePhase.idle },
           scl := true, sda := true, ok := ok }) := by
  show (I2CStop s, Wires.replay _ (emitted s (I2CStop s))) = _
  rw [emitted_append s _ _ (by rw [I2CStop_eq]), wires_stop_recv]

theorem wired_stop_idle (da0 : Nat) (s : Pins) (store : Nat → Nat) (ptr : Nat)
    (d ok : Bool) :
    (wired (pinBus da0)).I2CStop
        (s, { slave := { store := store, ptr := ptr, phase := SlavePhase.idle },
              scl := false, sda := d, ok := ok })
      = (I2CStop s,
         { slave := { store := store, ptr := ptr, phase := SlavePhase.idle },
           scl := true, sda := true, ok := ok }) := by
  show (I2CStop s, Wires.replay _ (emitted s (I2CStop s))) = _
  rw [emitted_append s _ _ (by rw [I2CStop_eq]), wires_stop_idle]

theorem wired_delay (da0 n : Nat) (st : Pins × Wires) :
    (wired (pinBus da0)).I2C_Delay n st = (I2C_Delay n st.1, st.2) := by
  show (I2C_Delay n st.1, Wires.replay _ (emitted st.1 (I2C_Delay n st.1))) = _
  rw [emitted_append st.1 _ _ (by rw [I2C_Delay_eq]), wires_delay]

/-! ### The two loops on the wires -/

theorem I2C_Delay_env_reads (n : Nat) (s : Pins) :
    (I2C_Delay n s).env = s.env ∧ (I2C_Delay n s).reads = s.reads := by
  rw [I2C_Delay_eq]; exact ⟨rfl, rfl⟩

theorem I2CStart_env_reads (s : Pins) :
    (I2CStart s).env = s.env ∧ (I2CStart s).reads = s.reads := by
  rw [I2CStart_eq]; exact ⟨rfl, rfl⟩

theorem I2CStop_env_reads (s : Pins) :
    (I2CStop s).env = s.env ∧ (I2CStop s).reads = s.reads := by
  rw [I2CStop_eq]; exact ⟨rfl, rfl⟩

theorem I2CSendByte_env_reads (b : Nat) (s : Pins) :
    (I2CSendByte b s).env = s.env ∧ (I2CSendByte b s).reads = s.reads := by
  rw [I2CSendByte_eq]; exact ⟨rfl, rfl⟩

theorem I2CReceiveByte_env_reads (da0 : Nat) (s : Pins) :
    (I2CReceiveByte da0 s).2.env = s.env ∧ (I2CReceiveByte da0 s).2.reads = s.reads + 8 := by
  rw [I2CReceiveByte_eq]; exact ⟨rfl, rfl⟩

theorem I2CWaitAck_env_reads (s : Pins) :
    (I2CWaitAck s).2.env = s.env ∧ (I2CWaitAck s).2.reads = s.reads + 1 := by
  rw [I2CWaitAck_eq]; exact ⟨rfl, rfl⟩

theorem I2CSendAck_env_reads (a : Nat) (s : Pins) :
    (I2CSendAck a s).env = s.env ∧ (I2CSendAck a s).reads = s.reads := by
  rw [I2CSendAck_eq]; exact ⟨rfl, rfl⟩

theorem receive_value (da0 : Nat) (s : Pins) (x : Nat)
    (h : (List.range 8).map (fun j => s.env (s.reads + j))
          = (List.range 8).map (fun j => x.testBit (7 - j))) :
    (I2CReceiveByte da0 s).1 = x % 256 := by
  simp only [List.range, List.range.loop, List.map, List.cons.injEq, and_true,
    Nat.add_zero, Nat.sub_zero, Nat.reduceSub] at h
  obtain ⟨h0, h1, h2, h3, h4, h5, h6, h7⟩ := h
  rw [I2CReceiveByte_eq]
  simp only [h0, h1, h2, h3, h4, h5, h6, h7]
  have hb := bits_value x
  omega

theorem wired_write_loop (da0 n : Nat) :
    ∀ (mem : List Nat) (p : Nat) (s : Pins) (store : Nat → Nat) (ptr : Nat) (d ok : Bool),
      ptr + n ≤ 256 →
      ∃ (s2 : Pins) (store2 : Nat → Nat) (ptr2 : Nat) (d2 ok2 : Bool),
        (EEPROM_Write_loop (wired (pinBus da0)) n mem p
            (s, { slave := { store := store, ptr := ptr,
                             phase := SlavePhase.recv ByteKind.data 0 0 },
                  scl := false, sda := d, ok := ok })).2
          = (s2, { slave := { store := store2, ptr := ptr2,
                              phase := SlavePhase.recv ByteKind.data 0 0 },
                   scl := false, sda := d2, ok := ok2 })
        ∧ (∀ i, i < n → store2 (ptr + i) = mem.getD (p + i) 0 % 256)
        ∧ (∀ j, j < ptr → store2 j = store j)
        ∧ s2.env = s.env ∧ s2.reads = s.reads + n
        ∧ ((∀ i, i < n → s.env (s.reads + i) = false) → ok2 = ok) := by
  induction n with
  | zero =>
    intro mem p s store ptr d ok _
    exact ⟨s, store, ptr, d, ok, rfl, fun i hi => absurd hi (Nat.not_lt_zero i), fun _ _ => rfl,
      rfl, rfl, fun _ => rfl⟩
  | succ n ih =>
    intro mem p s store ptr d ok hp
    rw [EEPROM_Write_loop]
    simp only [wired_send, Slave.onByte, wired_waitAck, wired_delay]
    obtain ⟨s2, store2, ptr2, d2, ok2, h1, h2, h3, h4, h5, h6⟩ := ih mem (p + 1)
      (I2C_Delay 200 (I2CWaitAck (I2CSendByte (mem.getD p 0) s)).2)
      (fun i => if i = ptr then mem.getD p 0 % 256 else store i) ((ptr + 1) % 256)
      ((mem.getD p 0).testBit 0) (ok && !(I2CSendByte (mem.getD p 0) s).env
        (I2CSendByte (mem.getD p 0) s).reads)
      (by omega)
    have henv : (I2C_Delay 200 (I2CWaitAck (I2CSendByte (mem.getD p 0) s)).2).env = s.env := by
      rw [(I2C_Delay_env_reads _ _).1, (I2CWaitAck_env_reads _).1, (I2CSendByte_env_reads _ _).1]
    have hreads : (I2C_Delay 200 (I2CWaitAck (I2CSendByte (mem.getD p 0) s)).2).reads
        = s.reads + 1 := by
      rw [(I2C_Delay_env_reads _ _).2, (I2CWaitAck_env_reads _).2, (I2CSendByte_env_reads _ _).2]
    rw [henv, hreads] at h6
    rw [(I2CSendByte_env_reads _ _).1, (I2CSendByte_env_reads _ _).2] at h6
    refine ⟨s2, store2, ptr2, d2, ok2, h1, ?_, ?_, h4.trans henv, ?_, ?_⟩
    rotate_left 2
    · rw [h5, hreads]; omega
    · intro h
      rw [h6 (fun i hi => by
        rw [show s.reads + 1 + i = s.reads + (i + 1) by omega]
        exact h (i + 1) (by omega))]
      have h0 := h 0 (by omega)
      rw [Nat.add_zero] at h0
      rw [h0]
      simp
    · intro i hi
      by_cases hn : n = 0
      · subst hn
        have hi0 : i = 0 := by omega
        subst hi0
        have hmod : (ptr + 1) % 256 ≤ 256 := by omega
        simp only [EEPROM_Write_loop, Prod.mk.injEq, Wires.mk.injEq, Slave.mk.injEq] at h1
        obtain ⟨-, ⟨hst, -, -⟩, -, -, -⟩ := h1
        rw [← hst]
        simp
      · have hmod : (ptr + 1) % 256 = ptr + 1 := Nat.mod_eq_of_lt (by omega)
        rw [hmod] at h2 h3
        cases i with
        | zero =>
          rw [Nat.add_zero, h3 ptr (by omega)]
          simp
        | succ k =>
          have := h2 k (by omega)
          rw [show ptr + (k + 1) = ptr + 1 + k by omega,
            show p + (k + 1) = p + 1 + k by omega]
          exact this
    · intro j hj
      by_cases hn : n = 0
      · subst hn
        simp only [EEPROM_Write_loop, Prod.mk.injEq, Wires.mk.injEq, Slave.mk.injEq] at h1
        obtain ⟨-, ⟨hst, -, -⟩, -, -, -⟩ := h1
        rw [← hst]
        exact if_neg (show ¬ j = ptr by omega)
      · have hmod : (ptr + 1) % 256 = ptr + 1 := Nat.mod_eq_of_lt (by omega)
        rw [hmod] at h3
        rw [h3 j (by omega), if_neg (by omega)]


theorem wired_read_loop (da0 n : Nat) :
    ∀ (mem : List Nat) (q : Nat) (s : Pins) (store : Nat → Nat) (ptr : Nat) (ok : Bool),
      ptr + (n + 1) ≤ 256 → q + (n + 1) ≤ mem.length →
      ∃ (res : List Nat) (s2 : Pins) (ptr2 : Nat) (ok2 : Bool),
        EEPROM_Read_loop (wired (pinBus da0)) (n + 1) mem q
            (s, { slave := { store := store, ptr := ptr, phase := SlavePhase.send 0 },
                  scl := false, sda := true, ok := ok })
          = (res, (s2, { slave := { store := store, ptr := ptr2, phase := SlavePhase.idle },
                         scl := false, sda := true, ok := ok2 }))
        ∧ (ok2 = true →
            ok = true ∧
            res = mem.take q ++ (List.range (n + 1)).map (fun i => store (ptr + i) % 256)
                    ++ mem.drop (q + (n + 1)))
        ∧ s2.env = s.env ∧ s2.reads = s.reads + 8 * (n + 1)
        ∧ ((∀ i, i < n + 1 → ∀ j, j < 8 →
              s.env (s.reads + 8 * i + j) = (store (ptr + i)).testBit (7 - j)) → ok2 = ok) := by
  induction n with
  | zero =>
    intro mem q s store ptr ok _ hq
    have hq2 : q < mem.length := by omega
    rw [EEPROM_Read_loop]
    simp only [wired_receive, ne_eq, not_true_eq_false, if_false, wired_sendAck,
      Nat.one_ne_zero, not_false_eq_true, if_true, EEPROM_Read_loop]
    refine ⟨_, _, _, _, rfl, ?_, ?_, ?_, ?_⟩
    · intro hok
      simp only [Bool.and_eq_true, decide_eq_true_eq] at hok
      refine ⟨hok.1, ?_⟩
      rw [receive_value da0 s (store ptr) hok.2, List.set_eq_take_append_cons_drop, if_pos hq2]
      simp [List.range_succ]
    · rw [(I2CSendAck_env_reads _ _).1, (I2CReceiveByte_env_reads _ _).1]
    · rw [(I2CSendAck_env_reads _ _).2, (I2CReceiveByte_env_reads _ _).2]
    · intro h
      have hm : (List.range 8).map (fun j => s.env (s.reads + j))
          = (List.range 8).map (fun j => (store ptr).testBit (7 - j)) := by
        apply List.map_congr_left
        intro j hj
        have := h 0 (by omega) j (List.mem_range.mp hj)
        simpa using this
      rw [hm]
      simp
  | succ n ih =>
    intro mem q s store ptr ok hp hq
    have hq2 : q < mem.length := by omega
    have hmod : (ptr + 1) % 256 = ptr + 1 := Nat.mod_eq_of_lt (by omega)
    rw [EEPROM_Read_loop]
    simp only [wired_receive, ne_eq, Nat.add_one_ne_zero, not_false_eq_true, if_true,
      wired_sendAck, not_true_eq_false, if_false, hmod]
    obtain ⟨res, s2, ptr2, ok2, h1, h2, h3, h4, h5⟩ :=
      ih (mem.set q (I2CReceiveByte da0 s).1) (q + 1)
      (I2CSendAck 0 (I2CReceiveByte da0 s).2) store (ptr + 1)
      (ok && decide ((List.range 8).map (fun j => s.env (s.reads + j))
        = (List.range 8).map (fun j => (store ptr).testBit (7 - j))))
      (by omega) (by simp only [List.length_set]; omega)
    have henv : (I2CSendAck 0 (I2CReceiveByte da0 s).2).env = s.env := by
      rw [(I2CSendAck_env_reads _ _).1, (I2CReceiveByte_env_reads _ _).1]
    have hreads : (I2CSendAck 0 (I2CReceiveByte da0 s).2).reads = s.reads + 8 := by
      rw [(I2CSendAck_env_reads _ _).2, (I2CReceiveByte_env_reads _ _).2]
    rw [henv, hreads] at h5
    refine ⟨res, s2, ptr2, ok2, h1, ?_, h3.trans henv, ?_, ?_⟩
    · intro hok
      obtain ⟨hmono, hres⟩ := h2 hok
      simp only [Bool.and_eq_true, decide_eq_true_eq] at hmono
      refine ⟨hmono.1, ?_⟩
      rw [hres, receive_value da0 s (store ptr) hmono.2, take_succ_set mem q _ hq2,
        drop_succ_set, List.range_succ_eq_map (n + 1)]
      simp [Function.comp_def, Nat.add_assoc, Nat.add_comm 1]
    · rw [h4, hreads]; omega
    · intro h
      rw [h5 (fun i hi j hj => by
        rw [show s.reads + 8 + 8 * i + j = s.reads + 8 * (i + 1) + j by omega,
          show ptr + 1 + i = ptr + (i + 1) by omega]
        exact h (i + 1) (by omega) j hj)]
      have hm : (List.range 8).map (fun j => s.env (s.reads + j))
          = (List.range 8).map (fun j => (store ptr).testBit (7 - j)) := by
        apply List.map_congr_left
        intro j hj
        have := h 0 (by omega) j (List.mem_range.mp hj)
        simpa using this
      rw [hm]
      simp

/-! ### The two transactions on the wires -/

theorem wired_write_prologue (da0 addr : Nat) (s : Pins) (store : Nat → Nat) (ptr : Nat)
    (c d ok : Bool) (ha : addr ≤ 255) :
    ∃ (P : Pins) (D O : Bool),
      ((wired (pinBus da0)).I2CWaitAck ((wired (pinBus da0)).I2CSendByte addr
        ((wired (pinBus da0)).I2CWaitAck ((wired (pinBus da0)).I2CSendByte 0xa0
          ((wired (pinBus da0)).I2CStart
            (s, { slave := { store := store, ptr := ptr, phase := SlavePhase.idle },
                  scl := c, sda := d, ok := ok })))).2)).2
        = (P, { slave := { store := store, ptr := addr,
                           phase := SlavePhase.recv ByteKind.data 0 0 },
                scl := false, sda := D, ok := O })
      ∧ P.env = s.env ∧ P.reads = s.reads + 2
      ∧ (s.env s.reads = false → s.env (s.reads + 1) = false → O = ok) := by
  have hmod : addr % 256 = addr := Nat.mod_eq_of_lt (by omega)
  refine ⟨(I2CWaitAck (I2CSendByte addr (I2CWaitAck (I2CSendByte 0xa0 (I2CStart s))).2)).2,
    addr.testBit 0, ok && !(s.env s.reads) && !(s.env (s.reads + 1)), ?_, ?_, ?_, ?_⟩
  · rw [wired_start_idle, wired_send]
    simp only [Slave.onByte, Nat.reduceMod, if_true]
    rw [wired_waitAck, wired_send]
    simp only [Slave.onByte, hmod]
    rw [wired_waitAck]
    simp only [(I2CSendByte_env_reads _ _).1, (I2CSendByte_env_reads _ _).2,
      (I2CWaitAck_env_reads _).1, (I2CWaitAck_env_reads _).2,
      (I2CStart_env_reads _).1, (I2CStart_env_reads _).2]
  · simp only [(I2CSendByte_env_reads _ _).1, (I2CWaitAck_env_reads _).1,
      (I2CStart_env_reads _).1]
  · simp only [(I2CSendByte_env_reads _ _).2, (I2CWaitAck_env_reads _).2,
      (I2CStart_env_reads _).2]
  · intro h0 h1
    rw [h0, h1]
    simp

theorem wired_EEPROM_Write (da0 : Nat) (buf : List Nat) (addr n : Nat) (s : Pins)
    (store : Nat → Nat) (ptr : Nat) (c d ok : Bool) (ha : addr ≤ 255)
    (hw : addr + n ≤ 256) :
    ∃ (s2 : Pins) (store2 : Nat → Nat) (ptr2 : Nat) (ok2 : Bool),
      (EEPROM_Write (wired (pinBus da0)) buf addr n
          (s, { slave := { store := store, ptr := ptr, phase := SlavePhase.idle },
                scl := c, sda := d, ok := ok })).2
        = (s2, { slave := { store := store2, ptr := ptr2, phase := SlavePhase.idle },
                 scl := true, sda := true, ok := ok2 })
      ∧ (∀ i, i < n → store2 (addr + i) = buf.getD i 0 % 256)
      ∧ s2.env = s.env ∧ s2.reads = s.reads + (n + 2)
      ∧ ((∀ i, i < n + 2 → s.env (s.reads + i) = false) → ok2 = ok) := by
  obtain ⟨P, D, O, hpro, hPe, hPr, hO⟩ := wired_write_prologue da0 addr s store ptr c d ok ha
  obtain ⟨s2, store2, ptr2, d2, ok2, h1, h2, _, h4, h5, h6⟩ :=
    wired_write_loop da0 n buf 0 P store addr D O hw
  have g2 : ∀ i, i < n → store2 (addr + i) = buf.getD i 0 % 256 := by
    intro i hi
    have := h2 i hi
    simpa using this
  refine ⟨List.foldl (fun q k => I2C_Delay k q) (I2CStop s2) (List.replicate 10 255),
    store2, ptr2, ok2, ?_, g2, ?_, ?_, ?_⟩
  · simp only [EEPROM_Write, hpro, h1, wired_stop_recv, wired_delay, List.replicate,
      List.foldl]
  · simp only [List.replicate, List.foldl, (I2C_Delay_env_reads _ _).1,
      (I2CStop_env_reads _).1, h4, hPe]
  · simp only [List.replicate, List.foldl, (I2C_Delay_env_reads _ _).2,
      (I2CStop_env_reads _).2, h5, hPr]
    omega
  · intro h
    rw [hPe, hPr] at h6
    rw [h6 (fun i hi => by
      rw [show s.reads + 2 + i = s.reads + (i + 2) by omega]
      exact h (i + 2) (by omega))]
    exact hO (h 0 (by omega)) (h 1 (by omega))

theorem wired_read_prologue (da0 addr : Nat) (s : Pins) (store : Nat → Nat) (ptr : Nat)
    (c d ok : Bool) (ha : addr ≤ 255) :
    ∃ (P : Pins) (O : Bool),
      ((wired (pinBus da0)).I2CWaitAck ((wired (pinBus da0)).I2CSendByte 0xa1
        ((wired (pinBus da0)).I2CStart
          ((wired (pinBus da0)).I2CWaitAck ((wired (pinBus da0)).I2CSendByte addr
            ((wired (pinBus da0)).I2CWaitAck ((wired (pinBus da0)).I2CSendByte 0xa0
              ((wired (pinBus da0)).I2CStart
                (s, { slave := { store := store, ptr := ptr, phase := SlavePhase.idle },
                      scl := c, sda := d, ok := ok })))).2)).2))).2
        = (P, { slave := { store := store, ptr := addr, phase := SlavePhase.send 0 },
                scl := false, sda := true, ok := O })
      ∧ P.env = s.env ∧ P.reads = s.reads + 3
      ∧ ((∀ i, i < 3 → s.env (s.reads + i) = false) → O = ok) := by
  obtain ⟨P, D, O, hpro, hPe, hPr, hO⟩ := wired_write_prologue da0 addr s store ptr c d ok ha
  have h : Nat.testBit 0xa1 0 = true := by decide
  refine ⟨(I2CWaitAck (I2CSendByte 0xa1 (I2CStart P))).2, O && !(s.env (s.reads + 2)),
    ?_, ?_, ?_, ?_⟩
  · rw [hpro, wired_start_recv, wired_send]
    simp only [Slave.onByte, Nat.reduceMod, Nat.reduceEqDiff, if_false, if_true]
    rw [wired_waitAck, h]
    simp only [(I2CSendByte_env_reads _ _).1, (I2CSendByte_env_reads _ _).2,
      (I2CStart_env_reads _).1, (I2CStart_env_reads _).2, hPe, hPr]
  · simp only [(I2CSendByte_env_reads _ _).1, (I2CWaitAck_env_reads _).1,
      (I2CStart_env_reads _).1, hPe]
  · simp only [(I2CSendByte_env_reads _ _).2, (I2CWaitAck_env_reads _).2,
      (I2CStart_env_reads _).2, hPr]
  · intro h3
    have h0 := h3 0 (by omega)
    rw [Nat.add_zero] at h0
    rw [hO h0 (h3 1 (by omega)), h3 2 (by omega)]
    simp

theorem wired_EEPROM_Read (da0 : Nat) (rbuf : List Nat) (addr n : Nat) (s : Pins)
    (store : Nat → Nat) (ptr : Nat) (c d ok : Bool) (ha : addr ≤ 255)
    (hw : addr + (n + 1) ≤ 256) (hr : n + 1 ≤ rbuf.length) :
    ∃ (res : List Nat) (s2 : Pins) (ptr2 : Nat) (ok2 : Bool),
      EEPROM_Read (wired (pinBus da0)) rbuf addr (n + 1)
          (s, { slave := { store := store, ptr := ptr, phase := SlavePhase.idle },
                scl := c, sda := d, ok := ok })
        = (res, (s2, { slave := { store := store, ptr := ptr2, phase := SlavePhase.idle },
                       scl := true, sda := true, ok := ok2 }))
      ∧ (ok2 = true →
          res = (List.range (n + 1)).map (fun i => store (addr + i) % 256)
                  ++ rbuf.drop (n + 1))
      ∧ ((∀ i, i < 3 → s.env (s.reads + i) = false) →
          (∀ i, i < n + 1 → ∀ j, j < 8 →
            s.env (s.reads + 3 + 8 * i + j) = (store (addr + i)).testBit (7 - j)) →
          ok2 = ok) := by
  obtain ⟨P, O, hpro, hPe, hPr, hO⟩ := wired_read_prologue da0 addr s store ptr c d ok ha
  obtain ⟨res, s2, ptr2, ok2, h1, h2, _, _, h5⟩ :=
    wired_read_loop da0 n rbuf 0 P store addr O hw (by omega)
  have g2 : ok2 = true →
      res = (List.range (n + 1)).map (fun i => store (addr + i) % 256)
              ++ rbuf.drop (n + 1) := by
    intro hok
    have := (h2 hok).2
    simpa using this
  refine ⟨res, I2CStop s2, ptr2, ok2, ?_, g2, ?_⟩
  · simp only [EEPROM_Read, hpro, h1, wired_stop_idle]
  · intro ha3 hbits
    rw [hPe, hPr] at h5
    rw [h5 hbits]
    exact hO ha3

/-! ### The wired bus against the bare pins -/

theorem wired_Read_loop_erase (B : I2CBus Pins) (n : Nat) :
    ∀ (mem : List Nat) (p : Nat) (st : Pins × Wires),
      (EEPROM_Read_loop (wired B) n mem p st).1 = (EEPROM_Read_loop B n mem p st.1).1 ∧
      (EEPROM_Read_loop (wired B) n mem p st).2.1 = (EEPROM_Read_loop B n mem p st.1).2 := by
  induction n with
  | zero => intro mem p st; simp [EEPROM_Read_loop]
  | succ n ih =>
    intro mem p st
    rw [EEPROM_Read_loop, EEPROM_Read_loop]
    split_ifs <;> exact ih _ _ _

theorem wired_Write_loop_erase (B : I2CBus Pins) (n : Nat) :
    ∀ (mem : List Nat) (p : Nat) (st : Pins × Wires),
      (EEPROM_Write_loop (wired B) n mem p st).1 = (EEPROM_Write_loop B n mem p st.1).1 ∧
      (EEPROM_Write_loop (wired B) n mem p st).2.1 = (EEPROM_Write_loop B n mem p st.1).2 := by
  induction n with
  | zero => intro mem p st; simp [EEPROM_Write_loop]
  | succ n ih =>
    intro mem p st
    rw [EEPROM_Write_loop, EEPROM_Write_loop]
    exact ih _ _ _

/-- Dropping the wires from a transaction run on `wired B` gives the
transaction run on `B`: same array, same bus state. -/
theorem wired_erase (B : I2CBus Pins) (str : List Nat) (a n : Nat) (st : Pins × Wires) :
    ((EEPROM_Read (wired B) str a n st).1 = (EEPROM_Read B str a n st.1).1 ∧
      (EEPROM_Read (wired B) str a n st).2.1 = (EEPROM_Read B str a n st.1).2) ∧
    ((EEPROM_Write (wired B) str a n st).1 = (EEPROM_Write B str a n st.1).1 ∧
      (EEPROM_Write (wired B) str a n st).2.1 = (EEPROM_Write B str a n st.1).2) := by
  refine ⟨?_, ?_⟩
  · simp only [EEPROM_Read]
    exact ⟨(wired_Read_loop_erase B n _ _ _).1,
      congrArg B.I2CStop (wired_Read_loop_erase B n _ _ _).2⟩
  · simp only [EEPROM_Write]
    refine ⟨(wired_Write_loop_erase B n _ _ _).1, ?_⟩
    have h := (wired_Write_loop_erase B n str 0
      ((wired B).I2CWaitAck ((wired B).I2CSendByte a
        ((wired B).I2CWaitAck ((wired B).I2CSendByte 0xa0 ((wired B).I2CStart st))).2)).2).2
    simp only [wired] at h ⊢
    rw [h]

/-- Every signal-level function only appends to the log of pin actions. -/
theorem pinBus_log (da0 : Nat) (s : Pins) :
    (∀ n, ∃ e, (I2C_Delay n s).log = s.log ++ e)
    ∧ (∃ e, (I2CStart s).log = s.log ++ e)
    ∧ (∃ e, (I2CStop s).log = s.log ++ e)
    ∧ (∀ b, ∃ e, (I2CSendByte b s).log = s.log ++ e)
    ∧ (∃ e, (I2CReceiveByte da0 s).2.log = s.log ++ e)
    ∧ (∃ e, (I2CWaitAck s).2.log = s.log ++ e)
    ∧ (∀ a, ∃ e, (I2CSendAck a s).log = s.log ++ e) :=
  ⟨fun n => ⟨_, by rw [I2C_Delay_eq]⟩, ⟨_, by rw [I2CStart_eq]⟩, ⟨_, by rw [I2CStop_eq]⟩,
   fun b => ⟨_, by rw [I2CSendByte_eq]⟩, ⟨_, by rw [I2CReceiveByte_eq]⟩,
   ⟨_, by rw [I2CWaitAck_eq]⟩, fun a => ⟨_, by rw [I2CSendAck_eq]⟩⟩

theorem linked_step (s0 : Pins) (w0 : Wires) (x : Pins × Wires) (t : Pins)
    (hx : ∃ a, x.1.log = s0.log ++ a ∧ x.2 = w0.replay a)
    (ht : ∃ e, t.log = x.1.log ++ e) :
    ∃ a, t.log = s0.log ++ a ∧ x.2.replay (emitted x.1 t) = w0.replay a := by
  obtain ⟨a, h1, h2⟩ := hx
  obtain ⟨e, he⟩ := ht
  refine ⟨a ++ e, ?_, ?_⟩
  · rw [he, h1, List.append_assoc]
  · rw [emitted_append x.1 t e he, h2, replay_append]

/-- Along any run of the driver on the wired bus, the wires are in the state
reached by replaying, from the start, the pin actions logged so far. -/
theorem wired_linked (da0 : Nat) (s0 : Pins) (w0 : Wires) :
    BusRel (wired (pinBus da0)) (wired (pinBus da0))
      (fun x y => x = y ∧ ∃ a, x.1.log = s0.log ++ a ∧ x.2 = w0.replay a) := by
  refine ⟨?_, ?_, ?_, ?_, ?_, ?_, ?_⟩
  · rintro n x _ ⟨rfl, hx⟩
    exact ⟨rfl, linked_step s0 w0 x _ hx ((pinBus_log da0 x.1).1 n)⟩
  · rintro x _ ⟨rfl, hx⟩
    exact ⟨rfl, linked_step s0 w0 x _ hx (pinBus_log da0 x.1).2.1⟩
  · rintro x _ ⟨rfl, hx⟩
    exact ⟨rfl, linked_step s0 w0 x _ hx (pinBus_log da0 x.1).2.2.1⟩
  · rintro b x _ ⟨rfl, hx⟩
    exact ⟨rfl, linked_step s0 w0 x _ hx ((pinBus_log da0 x.1).2.2.2.1 b)⟩
  · rintro x _ ⟨rfl, hx⟩
    exact ⟨rfl, linked_step s0 w0 x _ hx (pinBus_log da0 x.1).2.2.2.2.1⟩
  · rintro x _ ⟨rfl, hx⟩
    exact ⟨rfl, linked_step s0 w0 x _ hx (pinBus_log da0 x.1).2.2.2.2.2.1⟩
  · rintro a x _ ⟨rfl, hx⟩
    exact ⟨rfl, linked_step s0 w0 x _ hx ((pinBus_log da0 x.1).2.2.2.2.2.2 a)⟩

/-- After a write and a read on the wired bus, the wires are where replaying
the whole log of the two transactions takes them. -/
theorem wired_round_trip_replay (da0 : Nat) (s : Pins) (w0 : Wires)
    (buf rbuf : List Nat) (addr count : Nat) :
    (EEPROM_Read (wired (pinBus da0)) rbuf addr count
        (EEPROM_Write (wired (pinBus da0)) buf addr count (s, w0)).2).2.2
      = w0.replay (emitted s
          (EEPROM_Read (pinBus da0) rbuf addr count
            (EEPROM_Write (pinBus da0) buf addr count s).2).2) := by
  have h := runCalls_rel (wired_linked da0 s w0)
    [Call.eepromWrite buf addr count, Call.eepromRead rbuf addr count] (s, w0) (s, w0)
    ⟨rfl, [], by simp, rfl⟩
  obtain ⟨_, a, h1, h2⟩ := h
  simp only [runCalls, List.foldl, Call.run] at h1 h2
  rw [h2]
  have e1 := (wired_erase (pinBus da0) rbuf addr count
    (EEPROM_Write (wired (pinBus da0)) buf addr count (s, w0)).2).1.2
  have e2 := (wired_erase (pinBus da0) buf addr count (s, w0)).2.2
  rw [e1, e2] at h1
  rw [emitted_append _ _ _ h1]

theorem range_map_getD (l : List Nat) (n : Nat) (h : n ≤ l.length) :
    (List.range n).map (fun i => l.getD i 0) = l.take n := by
  apply List.ext_getElem
  · simp [h]
  · intro i h1 h2
    simp only [List.length_map, List.length_range] at h1
    simp [List.getD_eq_getElem?_getD, List.getElem?_eq_getElem (show i < l.length by omega)]


/-- The hypothesis of the round trip can be met for every array: in front of
the samples `roundTripEnv count buf`, every level the driver samples during
the write of `count ≥ 1` bytes of `buf` and the read of `count` bytes is the
level of the line it shares with the device. -/
theorem round_trip_agrees (da0 : Nat) (store : Nat → Nat) (ptr : Nat)
    (buf rbuf : List Nat) (addr count : Nat)
    (hc : 0 < count) (ha : addr ≤ 255) (hw : addr + count ≤ 256)
    (hb : count ≤ buf.length) (hr : count ≤ rbuf.length)
    (hbytes : ∀ b ∈ buf, b < 256) :
    agrees { store := store, ptr := ptr, phase := SlavePhase.idle } true true
        (emitted (idlePins (roundTripEnv count buf))
          (EEPROM_Read (pinBus da0) rbuf addr count
            (EEPROM_Write (pinBus da0) buf addr count
              (idlePins (roundTripEnv count buf))).2).2) = true := by
  obtain ⟨n, rfl⟩ : ∃ n, count = n + 1 := ⟨count - 1, by omega⟩
  obtain ⟨s2, store2, ptr2, ok2, hW, hst, hE, hRd, hok2⟩ :=
    wired_EEPROM_Write da0 buf addr (n + 1) (idlePins (roundTripEnv (n + 1) buf)) store ptr
      true true true ha hw
  obtain ⟨res, s3, ptr3, ok3, hR, _, hok3⟩ :=
    wired_EEPROM_Read da0 rbuf addr n s2 store2 ptr2 true true ok2 ha hw hr
  have hlink := wired_round_trip_replay da0 (idlePins (roundTripEnv (n + 1) buf))
    { slave := { store := store, ptr := ptr, phase := SlavePhase.idle },
      scl := true, sda := true, ok := true } buf rbuf addr (n + 1)
  rw [hW, hR] at hlink
  have h := congrArg Wires.ok hlink
  simp only at h
  have hreads0 : (idlePins (roundTripEnv (n + 1) buf)).reads = 0 := rfl
  have henv0 : (idlePins (roundTripEnv (n + 1) buf)).env = roundTripEnv (n + 1) buf := rfl
  rw [hreads0] at hok2 hRd
  rw [henv0] at hok2 hE
  have k2 : ok2 = true := by
    apply hok2
    intro i hi
    simp only [roundTripEnv]
    rw [if_pos (by omega)]
  have k3 : ok3 = true := by
    rw [← k2]
    apply hok3
    · intro i hi
      rw [hE, hRd]
      simp only [roundTripEnv]
      rw [if_pos (by omega)]
    · intro i hi j hj
      rw [hE, hRd, hst i hi]
      simp only [roundTripEnv]
      rw [if_neg (by omega),
        show (0 + (n + 1 + 2) + 3 + 8 * i + j - (n + 1 + 5)) / 8 = i by omega,
        show (0 + (n + 1 + 2) + 3 + 8 * i + j - (n + 1 + 5)) % 8 = j by omega]
      have hlt : buf.getD i 0 < 256 := by
        apply hbytes
        rw [List.getD_eq_getElem?_getD,
          List.getElem?_eq_getElem (show i < buf.length by omega)]
        exact List.getElem_mem _
      rw [Nat.mod_eq_of_lt hlt]
      simp [List.getD_eq_getElem?_getD, List.getElem?_eq_getElem (show i < buf.length by omega)]
  unfold agrees
  rw [← h]
  exact k3

/-! ## The claims, continued -/

/-- C4: the driver of `iic.c`, run on its two pins against the emulated EEPROM
wired to them (an idle device with any content).  For every array `buf` of
bytes, every start address `addr ≤ 255` and every `count` with
`addr + count ≤ 256` (arrays of at least `count` bytes): if every level the
driver sampled on the data pin during `EEPROM_Write(buf, addr, count)` followed
by `EEPROM_Read(rbuf, addr, count)` was the level of the line it shares with
the device, then the array read is the first `count` bytes of `buf` followed
by the entries of `rbuf` from index `count` on, unchanged. -/
theorem EEPROM_round_trip (da0 : Nat) (s : Pins) (store : Nat → Nat) (ptr : Nat)
    (buf rbuf : List Nat) (addr count : Nat)
    (ha : addr ≤ 255) (hw : addr + count ≤ 256)
    (hb : count ≤ buf.length) (hr : count ≤ rbuf.length)
    (hbytes : ∀ b ∈ buf, b < 256)
    (hag : agrees { store := store, ptr := ptr, phase := SlavePhase.idle } s.scl s.sda
        (emitted s (EEPROM_Read (pinBus da0) rbuf addr count
          (EEPROM_Write (pinBus da0) buf addr count s).2).2) = true) :
    (EEPROM_Read (pinBus da0) rbuf addr count
        (EEPROM_Write (pinBus da0) buf addr count s).2).1
      = buf.take count ++ rbuf.drop count := by
  cases count with
  | zero => simp [EEPROM_Read, EEPROM_Read_loop]
  | succ n =>
    obtain ⟨s2, store2, ptr2, ok2, hW, hst, _, _, _⟩ :=
      wired_EEPROM_Write da0 buf addr (n + 1) s store ptr s.scl s.sda true ha hw
    obtain ⟨res, s3, ptr3, ok3, hR, hres, _⟩ :=
      wired_EEPROM_Read da0 rbuf addr n s2 store2 ptr2 true true ok2 ha hw hr
    -- the wires after the two transactions, from the log of the bare pins
    have hlink := wired_round_trip_replay da0 s
      { slave := { store := store, ptr := ptr, phase := SlavePhase.idle },
        scl := s.scl, sda := s.sda, ok := true } buf rbuf addr (n + 1)
    rw [hW, hR] at hlink
    have hok : ok3 = true := by
      have h := congrArg Wires.ok hlink
      simp only at h
      rw [h]
      exact hag
    -- the array read, from the run on the bare pins
    have e1 := (wired_erase (pinBus da0) rbuf addr (n + 1)
      (EEPROM_Write (wired (pinBus da0)) buf addr (n + 1)
        (s, { slave := { store := store, ptr := ptr, phase := SlavePhase.idle },
              scl := s.scl, sda := s.sda, ok := true })).2).1.1
    have e2 := (wired_erase (pinBus da0) buf addr (n + 1)
        (s, { slave := { store := store, ptr := ptr, phase := SlavePhase.idle },
              scl := s.scl, sda := s.sda, ok := true })).2.2
    rw [e2] at e1
    rw [hW, hR] at e1
    simp only at e1
    rw [← e1, hres hok, ← range_map_getD buf (n + 1) hb]
    congr 1
    apply List.map_congr_left
    intro i hi
    have hi2 : i < n + 1 := List.mem_range.mp hi
    have hlt : buf.getD i 0 < 256 := by
      apply hbytes
      rw [List.getD_eq_getElem?_getD, List.getElem?_eq_getElem (show i < buf.length by omega)]
      exact List.getElem_mem _
    rw [hst i hi2, Nat.mod_mod, Nat.mod_eq_of_lt hlt]


theorem EEPROM_round_trip_witness :
    (0x10 ≤ 255 ∧ 0x10 + 3 ≤ 256 ∧ 3 ≤ [0x11, 0x22, 0x33].length ∧ 3 ≤ [0, 0, 0].length
      ∧ (∀ b ∈ [0x11, 0x22, 0x33], b < 256)
      ∧ agrees blankSlave true true
          (emitted (idlePins (roundTripEnv 3 [0x11, 0x22, 0x33]))
            (EEPROM_Read (pinBus 0) [0, 0, 0] 0x10 3
              (EEPROM_Write (pinBus 0) [0x11, 0x22, 0x33] 0x10 3
                (idlePins (roundTripEnv 3 [0x11, 0x22, 0x33]))).2).2) = true)
    ∧ (EEPROM_Read (pinBus 0) [0, 0, 0] 0x10 3
          (EEPROM_Write (pinBus 0) [0x11, 0x22, 0x33] 0x10 3
            (idlePins (roundTripEnv 3 [0x11, 0x22, 0x33]))).2).1
        = [0x11, 0x22, 0x33] :=
  ⟨⟨by decide, by decide, by decide, by decide, by decide,
    round_trip_agrees 0 (fun _ => 0xff) 0 [0x11, 0x22, 0x33] [0, 0, 0] 0x10 3
      (by decide) (by decide) (by decide) (by decide) (by decide) (by decide)⟩,
   EEPROM_round_trip 0 (idlePins (roundTripEnv 3 [0x11, 0x22, 0x33])) (fun _ => 0xff) 0
     [0x11, 0x22, 0x33] [0, 0, 0] 0x10 3 (by decide) (by decide) (by decide) (by decide)
     (by decide)
     (round_trip_agrees 0 (fun _ => 0xff) 0 [0x11, 0x22, 0x33] [0, 0, 0] 0x10 3
       (by decide) (by decide) (by decide) (by decide) (by decide) (by decide))⟩

/-- C11: what the code does where the claim expects a released data line:
`I2CWaitAck` never writes the data latch, so the latch value at its sample is
the last bit `I2CSendByte` put out; in `Da_Write(v)` from the idle bus the
data latch at the three acknowledgement samples is low (after 0x90), high
(after 0x41) and bit 0 of `v`. -/
theorem waitAck_data_latch (da0 v b : Nat) (env : Nat → Bool) (s : Pins) :
    ((Call.run (segmented da0) (Call.daWrite v) (idlePins env, [])).2.filter
        Seg.isWaitAck).map (fun g => dataAtSamples g.sda0 g.evs)
      = [[false], [true], [v.testBit 0]]
    ∧ dataAtSamples (I2CSendByte b s).sda
        (emitted (I2CSendByte b s) (I2CWaitAck (I2CSendByte b s)).2) = [b.testBit 0]
    ∧ clockAtDataWrites s.scl (emitted s (I2CWaitAck s).2) = []
    ∧ (I2CWaitAck s).2.sda = s.sda := by
  refine ⟨?_, ?_, ?_, ?_⟩
  · simp only [Call.run, Da_Write, segmented_I2CStart, segmented_I2CSendByte,
      segmented_I2CWaitAck, List.nil_append, List.append_assoc]
    simp only [List.singleton_append, List.filter_cons, seg, Seg.isWaitAck, List.filter_nil,
      if_true, Bool.false_eq_true, if_false, List.map_cons, List.map_nil,
      dataAtSamples_waitAck]
    simp only [I2CSendByte_eq]
    simp
  · rw [dataAtSamples_waitAck, I2CSendByte_eq]
  · have h : emitted s (I2CWaitAck s).2 = _ := emitted_append s _ _ (by rw [I2CWaitAck_eq])
    rw [h]
    simp [clockAtDataWrites]
  · rw [I2CWaitAck_eq]

/-- C12: for every finite sequence of calls of `Ad_Read`, `Da_Write`,
`EEPROM_Write`, `EEPROM_Read` with any arguments and any sampled values,
started with the clock and data latches both high (or in any state other than
clock latch high with data latch low), every call of a
signal-level function keeps the timing discipline: the data latch changes
while the clock latch is high once inside each `I2CStart` (high to low), once
inside each `I2CStop` (low to high) and nowhere else; the segments are the
calls the recorded run shows. -/
theorem timing_invariant (da0 : Nat) (cs : List Call) (s : Pins)
    (hs : s.scl = true → s.sda = true) :
    (runCalls (segmented da0) cs (s, [])).2.all Seg.timingOk = true
    ∧ (runCalls (segmented da0) cs (s, [])).2.map Seg.op
        = (runCalls (recording (pinBus da0)) cs (s, Trace.empty)).2.ops :=
  ⟨(rest_runCalls da0 cs (s, []) ⟨rfl, hs⟩).1, segmented_ops da0 cs s⟩

theorem timing_invariant_witness :
    ((idlePins (fun _ => true)).scl = true → (idlePins (fun _ => true)).sda = true)
    ∧ (runCalls (segmented 0)
        [Call.daWrite 0, Call.adRead 3, Call.eepromWrite [0x11, 0x22] 0x10 2,
          Call.eepromRead [0, 0] 0x10 2]
        (idlePins (fun _ => true), [])).2.all Seg.timingOk = true :=
  ⟨fun _ => rfl,
   (timing_invariant 0 [Call.daWrite 0, Call.adRead 3, Call.eepromWrite [0x11, 0x22] 0x10 2,
      Call.eepromRead [0, 0] 0x10 2] (idlePins (fun _ => true)) (fun _ => rfl)).1⟩

/-- C13: for each of the four transactions and fixed arguments, two runs
from the same pins that differ in the values sampled from the data line (and
in the initial content of the accumulator of `I2CReceiveByte`) make the same
latch writes and delays in the same order, end with the same latches after
the same time, and on any two buses the same operations are called. -/
theorem ack_outcomes_ignored (c : Call) (da0 da1 : Nat) (s : Pins) (env2 : Nat → Bool)
    (reads2 : Nat) :
    masterActions (c.run (pinBus da0) s).log
        = masterActions (c.run (pinBus da1) { s with env := env2, reads := reads2 }).log
    ∧ (c.run (pinBus da0) s).scl
        = (c.run (pinBus da1) { s with env := env2, reads := reads2 }).scl
    ∧ (c.run (pinBus da0) s).sda
        = (c.run (pinBus da1) { s with env := env2, reads := reads2 }).sda
    ∧ (c.run (pinBus da0) s).nops
        = (c.run (pinBus da1) { s with env := env2, reads := reads2 }).nops
    ∧ (∀ (σ τ : Type) (B : I2CBus σ) (C : I2CBus τ) (x : σ) (y : τ),
        (c.run (recording B) (x, Trace.empty)).2.ops
          = (c.run (recording C) (y, Trace.empty)).2.ops) := by
  have h := Call_run_rel (pinBus_sameMaster da0 da1) c s
    { s with env := env2, reads := reads2 } ⟨rfl, rfl, rfl, rfl⟩
  exact ⟨h.2.2.2, h.1, h.2.1, h.2.2.1,
    fun σ τ B C x y => Call_run_rel (recording_same_ops B C) c (x, Trace.empty)
      (y, Trace.empty) rfl⟩

/-- C14: in the operations of every transaction, for all arguments and
counts and on every bus, each send-byte is directly followed by a wait-ack
and each receive-byte by a send-ack. -/
theorem byte_transfers_acknowledged {σ : Type} (B : I2CBus σ) (c : Call) (s : σ) :
    ackFollows (c.run (recording B) (s, Trace.empty)).2.ops = true := by
  have h := ackClosed_Call_run B c (s, Trace.empty) ackClosed_nil []
  simpa [ackFollows] using h

/-- C15: from any prior latch state `I2CStart` writes data high, clock high,
data low, clock low, the second data write being made with the clock latch
high, so the data latch goes from high to low there, and both latches end
low; `I2CStop` writes data low, clock high, data high, the second data write
being made with the clock latch high, so the data latch goes from low to high
there, and both latches end high. -/
theorem framing_conditions (s : Pins) :
    (emitted s (I2CStart s)
        = [Pin.sda true, Pin.scl true, Pin.delay 5, Pin.sda false, Pin.delay 5, Pin.scl false]
      ∧ clockAtDataWrites s.scl (emitted s (I2CStart s)) = [s.scl, true]
      ∧ (dataChangesClockHigh s.scl s.sda (emitted s (I2CStart s))).getLast? = some (true, false)
      ∧ (I2CStart s).scl = false ∧ (I2CStart s).sda = false)
    ∧ (emitted s (I2CStop s)
        = [Pin.sda false, Pin.scl true, Pin.delay 5, Pin.sda true, Pin.delay 5]
      ∧ clockAtDataWrites s.scl (emitted s (I2CStop s)) = [s.scl, true]
      ∧ (dataChangesClockHigh s.scl s.sda (emitted s (I2CStop s))).getLast? = some (false, true)
      ∧ (I2CStop s).scl = true ∧ (I2CStop s).sda = true) := by
  have h1 : emitted s (I2CStart s) = _ := emitted_append s _ _ (by rw [I2CStart_eq])
  have h2 : emitted s (I2CStop s) = _ := emitted_append s _ _ (by rw [I2CStop_eq])
  refine ⟨⟨h1, ?_, ?_, ?_, ?_⟩, ⟨h2, ?_, ?_, ?_, ?_⟩⟩
  · rw [h1]; simp [clockAtDataWrites]
  · rw [h1]; cases s.scl <;> cases s.sda <;> simp [dataChangesClockHigh]
  · rw [I2CStart_eq]
  · rw [I2CStart_eq]
  · rw [h2]; simp [clockAtDataWrites]
  · rw [h2]; cases s.scl <;> cases s.sda <;> simp [dataChangesClockHigh]
  · rw [I2CStop_eq]
  · rw [I2CStop_eq]

/-- C16: for every value `v` and on every bus, the bytes `Da_Write(v)` sends
are, in order, 0x90, 0x41 and `v`: 0x90 is the 7-bit address 1001000 (family
1001xxx) with direction bit 0; 0x41 has bit 6 set and channel bits 01 and is
the same for every `v`. -/
theorem Da_Write_bytes {σ : Type} (B : I2CBus σ) (v : Nat) (s : σ) :
    sentBytes (Da_Write (recording B) v (s, Trace.empty)).2.ops = [0x90, 0x41, v]
    ∧ sentBytes (Da_Write (recording B) 128 (s, Trace.empty)).2.ops = [0x90, 0x41, 128]
    ∧ 0x90 >>> 4 = 0b1001 ∧ 0x90 &&& 0x01 = 0
    ∧ Nat.testBit 0x41 6 = true ∧ 0x41 &&& 0x03 = 0b01 := by
  refine ⟨?_, ?_, by decide, by decide, by decide, by decide⟩
  · simp [Da_Write, sentBytes]
  · simp [Da_Write, sentBytes]

/-- C18: `I2C_Delay(n)` is total and its loop runs the body `n + 1` times:
the loop is the `n + 1`-fold iterate of the body, which costs 15 `_nop_()` a
pass; so a larger argument delays strictly longer and `n = 0` is the shortest
delay, one pass. -/
theorem I2C_Delay_passes (n m : Nat) (s : Pins) :
    I2C_Delay_loop n s = Nat.iterate I2C_Delay_body (n + 1) s
    ∧ (I2C_Delay n s).nops = s.nops + 15 * (n + 1)
    ∧ (I2C_Delay n s).nops < (I2C_Delay (n + 1 + m) s).nops
    ∧ (I2C_Delay 0 s).nops = s.nops + 15
    ∧ (I2C_Delay 0 s).nops ≤ (I2C_Delay n s).nops := by
  refine ⟨?_, I2C_Delay_nops n s, ?_, I2C_Delay_nops 0 s, ?_⟩
  · induction n generalizing s with
    | zero => rfl
    | succ n ih => rw [I2C_Delay_loop, ih]; rfl
  · rw [I2C_Delay_nops, I2C_Delay_nops]; omega
  · rw [I2C_Delay_nops, I2C_Delay_nops]; omega

/-- C19: in `Ad_Read` and `EEPROM_Read`, from any prior state of the pins
and for every argument, count and sampled value, at each of the eight samples
of every `I2CReceiveByte` the data latch is high; the segments are the calls
the recorded run shows; the read addresses 0x91 and 0xa1 have bit 0 set and
`I2CSendAck` always ends with the data latch high. -/
theorem receive_released (da0 c : Nat) (str : List Nat) (addr n : Nat) (s : Pins) :
    (Call.run (segmented da0) (Call.adRead c) (s, [])).2.all Seg.receiveReleased = true
    ∧ (Call.run (segmented da0) (Call.adRead c) (s, [])).2.map Seg.op
        = (Call.run (recording (pinBus da0)) (Call.adRead c) (s, Trace.empty)).2.ops
    ∧ (Call.run (segmented da0) (Call.eepromRead str addr n) (s, [])).2.all
        Seg.receiveReleased = true
    ∧ (Call.run (segmented da0) (Call.eepromRead str addr n) (s, [])).2.map Seg.op
        = (Call.run (recording (pinBus da0)) (Call.eepromRead str addr n)
            (s, Trace.empty)).2.ops
    ∧ Nat.testBit 0x91 0 = true ∧ Nat.testBit 0xa1 0 = true
    ∧ (∀ (a : Nat) (q : Pins), (I2CSendAck a q).sda = true) := by
  refine ⟨released_Ad_Read da0 c (s, []) rfl, ?_, released_EEPROM_Read da0 str addr n (s, []) rfl,
    ?_, by decide, by decide, fun a q => by rw [I2CSendAck_eq]⟩
  · exact (Call_run_rel (segmented_recording_rel da0) (Call.adRead c) (s, [])
      (s, Trace.empty) ⟨rfl, rfl⟩).2
  · exact (Call_run_rel (segmented_recording_rel da0) (Call.eepromRead str addr n) (s, [])
      (s, Trace.empty) ⟨rfl, rfl⟩).2

end Iic

namespace Led

/-! ## Decoder selection -/

theorem select_Y4 (x : Nat) : ((x &&& 0x1f) ||| 0x80) &&& 0xe0 = 0x80 := by
  have h : x &&& 0x1f < 2 ^ 5 := Nat.and_lt_two_pow x (by norm_num)
  generalize x &&& 0x1f = y at h
  norm_num at h
  interval_cases y <;> rfl

theorem select_Y5 (x : Nat) : ((x &&& 0x1f) ||| 0xa0) &&& 0xe0 = 0xa0 := by
  have h : x &&& 0x1f < 2 ^ 5 := Nat.and_lt_two_pow x (by norm_num)
  generalize x &&& 0x1f = y at h
  norm_num at h
  interval_cases y <;> rfl

theorem select_none (x : Nat) : (x &&& 0x1f) &&& 0xe0 = 0 := by
  have h : x &&& 0x1f < 2 ^ 5 := Nat.and_lt_two_pow x (by norm_num)
  generalize x &&& 0x1f = y at h
  norm_num at h
  interval_cases y <;> rfl

theorem latch_P2 (s : Board) : s.latch.P2 = s.P2 := by
  unfold Board.latch; split_ifs <;> rfl

theorem latch_P0 (s : Board) : s.latch.P0 = s.P0 := by
  unfold Board.latch; split_ifs <;> rfl

/-! ## The latch of the buzzer, motor and relay -/

theorem Beep_eq (e : Bool) (s : Board) :
    Beep e s = updatePer (if e then { s with temp_2 := s.temp_2 ||| 0x40 }
      else { s with temp_2 := s.temp_2 &&& not8 0x40 }) := rfl

theorem Motor_eq (e : Bool) (s : Board) :
    Motor e s = updatePer (if e then { s with temp_2 := s.temp_2 ||| 0x20 }
      else { s with temp_2 := s.temp_2 &&& not8 0x20 }) := rfl

theorem Relay_eq (e : Bool) (s : Board) :
    Relay e s = updatePer (if e then { s with temp_2 := s.temp_2 ||| 0x10 }
      else { s with temp_2 := s.temp_2 &&& not8 0x10 }) := rfl

theorem updatePer_skip (s : Board) (h : s.temp_2 = s.temp_2_old) : updatePer s = s := by
  simp [updatePer, h]

theorem updatePer_write (s : Board) (h : s.temp_2 ≠ s.temp_2_old) :
    (updatePer s).per = s.temp_2 ∧ (updatePer s).temp_2_old = s.temp_2
      ∧ (updatePer s).temp_2 = s.temp_2 ∧ Load.per s.temp_2 ∈ (updatePer s).loads := by
  simp only [updatePer, h, ne_eq, not_false_eq_true, if_true, setP0, setP2]
  by_cases h1 : s.P2 &&& 0xe0 = 0x80
  · simp [Board.latch, h1, select_Y5, select_none]
  · by_cases h2 : s.P2 &&& 0xe0 = 0xa0
    · simp [Board.latch, h2, select_Y5, select_none]
    · simp [Board.latch, h1, h2, select_Y5, select_none]

theorem updatePer_temp_2 (s : Board) : (updatePer s).temp_2 = s.temp_2 := by
  by_cases h : s.temp_2 = s.temp_2_old
  · rw [updatePer_skip s h]
  · exact (updatePer_write s h).2.2.1

theorem PerCall_run_eq (c : PerCall) (s : Board) :
    c.run s = updatePer (if c.enable then { s with temp_2 := s.temp_2 ||| c.bit }
      else { s with temp_2 := s.temp_2 &&& not8 c.bit }) := by
  cases c <;> rfl

theorem PerCall_bit (c : PerCall) : c.bit = 0x40 ∨ c.bit = 0x20 ∨ c.bit = 0x10 := by
  cases c <;> simp [PerCall.bit]

theorem bit_facts (b k : Nat) (hb : b = 0x40 ∨ b = 0x20 ∨ b = 0x10) (hk : k < 8) :
    ((16 * k ||| b) &&& b = b ∧ (16 * k &&& not8 b) &&& b = 0)
    ∧ ((16 * k ||| b) &&& not8 b = 16 * k &&& not8 b
        ∧ (16 * k &&& not8 b) &&& not8 b = 16 * k &&& not8 b)
    ∧ ((16 * k ||| b) &&& not8 0x70 = 0 ∧ (16 * k &&& not8 b) &&& not8 0x70 = 0)
    ∧ (((16 * k ||| b) / 16 < 8 ∧ 16 * k ||| b = 16 * ((16 * k ||| b) / 16))
        ∧ ((16 * k &&& not8 b) / 16 < 8
          ∧ 16 * k &&& not8 b = 16 * ((16 * k &&& not8 b) / 16)))
    ∧ (16 * k ||| b ≠ 0xff ∧ 16 * k &&& not8 b ≠ 0xff) := by
  rcases hb with rfl | rfl | rfl <;> interval_cases k <;> decide

/-- One call of `Beep`, `Motor` or `Relay` from a state in order. -/
theorem per_step (c : PerCall) (s : Board) (h : PerInv s) :
    PerInv (c.run s)
    ∧ (c.run s).temp_2 &&& c.bit = (if c.enable then c.bit else 0)
    ∧ (c.run s).temp_2 &&& not8 c.bit = s.temp_2 &&& not8 c.bit
    ∧ (c.run s).temp_2 &&& not8 0x70 = 0
    ∧ (c.run s).temp_2_old = (c.run s).temp_2
    ∧ (c.run s).per = (c.run s).temp_2
    ∧ (s.temp_2_old = 0xff → Load.per (c.run s).temp_2 ∈ (c.run s).loads) := by
  obtain ⟨⟨k, hk, hk2⟩, hold⟩ := h
  obtain ⟨⟨f1, f2⟩, ⟨f3, f4⟩, ⟨f5, f6⟩, ⟨⟨f7, f8⟩, ⟨f9, f10⟩⟩, ⟨f11, f12⟩⟩ :=
    bit_facts c.bit k (PerCall_bit c) hk
  rw [PerCall_run_eq]
  generalize hu : (if c.enable then { s with temp_2 := s.temp_2 ||| c.bit }
      else { s with temp_2 := s.temp_2 &&& not8 c.bit } : Board) = u
  have hu2 : u.temp_2 = (if c.enable then 16 * k ||| c.bit else 16 * k &&& not8 c.bit) := by
    rw [← hu, ← hk2]; split <;> rfl
  have hu3 : u.temp_2_old = s.temp_2_old := by rw [← hu]; split <;> rfl
  have hu4 : u.per = s.per := by rw [← hu]; split <;> rfl
  have ht := updatePer_temp_2 u
  have hne : u.temp_2 ≠ 0xff := by rw [hu2]; split <;> assumption
  have hsync : (updatePer u).temp_2_old = u.temp_2 ∧ (updatePer u).per = u.temp_2 := by
    by_cases he : u.temp_2 = u.temp_2_old
    · rw [updatePer_skip u he]
      rcases hold with h0 | ⟨h1, h2⟩
      · rw [hu3, h0] at he; exact absurd he hne
      · exact ⟨he.symm, by rw [hu4, h2, ← h1, ← hu3, he]⟩
    · exact ⟨(updatePer_write u he).2.1, (updatePer_write u he).1⟩
  refine ⟨⟨?_, Or.inr ⟨by rw [ht]; exact hsync.1, by rw [ht]; exact hsync.2⟩⟩, ?_, ?_, ?_,
    by rw [ht]; exact hsync.1, by rw [ht]; exact hsync.2, ?_⟩
  · rw [ht, hu2]; split
    · exact ⟨_, f7, f8⟩
    · exact ⟨_, f9, f10⟩
  · rw [ht, hu2]; split
    · exact f1
    · exact f2
  · rw [ht, hu2, hk2]; split
    · exact f3
    · exact f4
  · rw [ht, hu2]; split
    · exact f5
    · exact f6
  · intro h0
    have he : u.temp_2 ≠ u.temp_2_old := by rw [hu3, h0]; exact hne
    rw [ht]
    exact (updatePer_write u he).2.2.2

theorem perInv_init (p0 p2 led per : Nat) : PerInv (Board.init p0 p2 led per) :=
  ⟨⟨0, by decide, rfl⟩, Or.inl rfl⟩

theorem perInv_runPer (cs : List PerCall) :
    ∀ s : Board, PerInv s → PerInv (runPer cs s) := by
  induction cs with
  | nil => intro s h; exact h
  | cons c cs ih =>
    intro s h
    simp only [runPer, List.foldl_cons]
    exact ih _ (per_step c s h).1

/-! ## The LED latch -/

theorem Led_Off_sync (s : Board) : LedInv (Led_Off s) := by
  simp only [LedInv, Led_Off, setP0, setP2]
  by_cases h1 : s.P2 &&& 0xe0 = 0x80
  · simp [Board.latch, h1, select_Y4, select_none, not8]
  · by_cases h2 : s.P2 &&& 0xe0 = 0xa0
    · simp [Board.latch, h2, select_Y4, select_none, not8]
    · simp [Board.latch, h1, h2, select_Y4, select_none, not8]

theorem Led_Disp_skip (u : List Nat) (s : Board) (h : pack u = s.temp_1_old) :
    (Led_Disp u s).led = s.led ∧ (Led_Disp u s).temp_1_old = s.temp_1_old
      ∧ (Led_Disp u s).loads = s.loads := by
  simp [Led_Disp, h]

theorem Led_Disp_write (u : List Nat) (s : Board) (h : pack u ≠ s.temp_1_old) :
    (Led_Disp u s).led = not8 (pack u) ∧ (Led_Disp u s).temp_1_old = pack u := by
  simp only [Led_Disp, h, ne_eq, not_false_eq_true, if_true, setP0, setP2]
  by_cases h1 : s.P2 &&& 0xe0 = 0x80
  · simp [Board.latch, h1, select_Y4, select_none]
  · by_cases h2 : s.P2 &&& 0xe0 = 0xa0
    · simp [Board.latch, h2, select_Y4, select_none]
    · simp [Board.latch, h1, h2, select_Y4, select_none]

theorem Led_Disp_sync (u : List Nat) (s : Board) (h : LedInv s) :
    LedInv (Led_Disp u s) ∧ (Led_Disp u s).led = not8 (pack u) := by
  unfold LedInv at h ⊢
  by_cases he : pack u = s.temp_1_old
  · obtain ⟨h1, h2, _⟩ := Led_Disp_skip u s he
    rw [h1, h2, h, he]
    exact ⟨rfl, rfl⟩
  · obtain ⟨h1, h2⟩ := Led_Disp_write u s he
    rw [h1, h2]
    exact ⟨rfl, rfl⟩

theorem ledInv_runLed (cs : List LedCall) :
    ∀ s : Board, LedInv s → LedInv (runLed cs s) := by
  induction cs with
  | nil => intro s h; exact h
  | cons c cs ih =>
    intro s h
    simp only [runLed, List.foldl_cons]
    apply ih
    cases c with
    | disp u => exact (Led_Disp_sync u s h).1
    | off => exact Led_Off_sync s

/-! ## The claims on led.c -/

/-- C17: what the code does where the claim expects the LED latch to follow
`ucLed`: from the initial state, whatever the LED latch holds, the first
`Led_Disp(ucLed)` leaves the latch as it was when `ucLed` is all ones (the
packed byte 0xff equals the initial `temp_1_old`, nothing is written) and
loads it with the complement of the packed byte otherwise; with the latch at
0xff (all LEDs off) `Led_Disp` of all ones leaves 0xff where the complement is
0x00.  Once a `Led_Off` was called, after any further calls `Led_Disp(ucLed)`
leaves the complement of the packed byte in the latch.  The array
{1,0,1,0,0,0,0,0} packs to 0x05. -/
theorem Led_Disp_first_call (p0 p2 led per : Nat) (u : List Nat) (cs : List LedCall)
    (s : Board) :
    (Led_Disp u (Board.init p0 p2 led per)).led
        = (if pack u = 0xff then led else not8 (pack u))
    ∧ pack [1, 1, 1, 1, 1, 1, 1, 1] = 0xff
    ∧ (Led_Disp [1, 1, 1, 1, 1, 1, 1, 1] (Board.init p0 p2 led per)).led = led
    ∧ (Led_Disp [1, 1, 1, 1, 1, 1, 1, 1] (Board.init p0 p2 led per)).loads = []
    ∧ (Led_Disp [1, 1, 1, 1, 1, 1, 1, 1] (Board.init 0xff 0xff 0xff 0x00)).led = 0xff
    ∧ not8 (pack [1, 1, 1, 1, 1, 1, 1, 1]) = 0x00
    ∧ (Led_Disp u (runLed cs (Led_Off s))).led = not8 (pack u)
    ∧ pack [1, 0, 1, 0, 0, 0, 0, 0] = 0x05 := by
  have hones : pack [1, 1, 1, 1, 1, 1, 1, 1] = 0xff := by decide
  have hskip := Led_Disp_skip [1, 1, 1, 1, 1, 1, 1, 1] (Board.init p0 p2 led per) hones
  refine ⟨?_, hones, hskip.1, hskip.2.2, ?_, by decide, ?_, by decide⟩
  · by_cases h : pack u = 0xff
    · rw [if_pos h]
      exact (Led_Disp_skip u (Board.init p0 p2 led per) h).1
    · rw [if_neg h]
      exact (Led_Disp_write u (Board.init p0 p2 led per) h).1
  · exact (Led_Disp_skip [1, 1, 1, 1, 1, 1, 1, 1] (Board.init 0xff 0xff 0xff 0x00) hones).1
  · exact (Led_Disp_sync u _ (ledInv_runLed cs _ (Led_Off_sync s))).2

/-- C20: from the initial state (`temp_2 = 0x00`, `temp_2_old = 0xff`, ports
and latches arbitrary), after any sequence `cs` of calls of `Beep`, `Motor`,
`Relay`, a further call `c` sets its own bit of `temp_2` (0x40, 0x20, 0x10)
to its argument and leaves the other bits as they were; `temp_2` has no bit
outside 0x70; `temp_2_old`, `temp_2` and the latch of the buzzer, motor and
relay agree after the call; and the first call loads that latch. -/
theorem per_calls (p0 p2 led per : Nat) (cs : List PerCall) (c : PerCall) :
    (c.run (runPer cs (Board.init p0 p2 led per))).temp_2 &&& c.bit
        = (if c.enable then c.bit else 0)
    ∧ (c.run (runPer cs (Board.init p0 p2 led per))).temp_2 &&& not8 c.bit
        = (runPer cs (Board.init p0 p2 led per)).temp_2 &&& not8 c.bit
    ∧ (c.run (runPer cs (Board.init p0 p2 led per))).temp_2 &&& not8 0x70 = 0
    ∧ (c.run (runPer cs (Board.init p0 p2 led per))).temp_2_old
        = (c.run (runPer cs (Board.init p0 p2 led per))).temp_2
    ∧ (c.run (runPer cs (Board.init p0 p2 led per))).per
        = (c.run (runPer cs (Board.init p0 p2 led per))).temp_2
    ∧ Load.per (c.run (Board.init p0 p2 led per)).temp_2
        ∈ (c.run (Board.init p0 p2 led per)).loads := by
  obtain ⟨_, h1, h2, h3, h4, h5, _⟩ :=
    per_step c _ (perInv_runPer cs _ (perInv_init p0 p2 led per))
  exact ⟨h1, h2, h3, h4, h5,
    (per_step c _ (perInv_init p0 p2 led per)).2.2.2.2.2.2 rfl⟩

end Led
